import Mathlib

/-!
Verification of the workflow orchestration engine of the repository
(`src/utils/workflow.py`): the `Stage` / `DummyStage` / `Workflow` classes.

Shallow embedding conventions:
* Unix timestamps (floats in the source) are modelled as `Int`.  The source
  uses the sentinel `-99` for "missing / unreachable" and `-100` for the
  `DummyStage` definition time; both are kept literally.
* The local filesystem is an association list from file path to mtime.
  Directory structure (`_prep_output_destination`) has no observable effect
  on any timestamp or resolution and is modelled as a no-op.
* The GitHub-release remote cache is `Remote`: a connectivity bit, the list
  of release tags, and an association list from asset name to `updated_at`
  timestamp (for the release of the workflow's `cache_tag`).  Uploading an
  asset stamps it with the current value of a monotone `clock`, which also
  supplies the mtimes of files created by a stage execution.
* A stage's `_run` is abstract in the source (subclasses implement it).  It
  is modelled by the stage-implementation contract stated in the class
  docstring: a compute stage materializes every declared output (at the
  current clock time); `DummyStage._run` does nothing.
* Python exceptions are `Except WfError`; the constructors record exactly
  the data interpolated into the corresponding message strings.
* `Stage.output` may be a single path or a list in the source;
  `_output_list` normalizes it to a list, so the model stores the list
  directly.  Likewise `dependencies : None | str | list` is normalized to a
  list (`None ↦ []`, `s ↦ [s]`); every use in the source (membership tests
  in `Workflow.add_stage` and `Workflow.run`) factors through exactly that
  normalization.
-/

/-- Resolution status of a stage: the strings `"local"`, `"cache"`, `"run"`
assigned to `Stage.resolution` in the source (`None` is `Option.none`). -/
inductive Resolution where
  | rlocal : Resolution
  | rcache : Resolution
  | ran : Resolution
deriving DecidableEq, Repr

/-- Which of the three timestamps is newest: the strings `"local"`,
`"cache"`, `"stage"` returned in `Stage.query`'s `"newest"` field. -/
inductive Newest where
  | nlocal : Newest
  | ncache : Newest
  | nstage : Newest
deriving DecidableEq, Repr

/-- Result dictionary of `Stage.query`. -/
structure QueryRes where
  localE : Bool
  cacheE : Bool
  newest : Newest
deriving DecidableEq, Repr

/-- One stage as constructed by `Stage.__init__` / `Workflow.add_stage`.
`isDummy` distinguishes `DummyStage` from compute stages; `srcTime` is the
mtime of the file defining the stage class (`getfile(self.__class__)`),
constant while the workflow runs. `config`/`paths`/`wf_vars` are opaque
parameter bags never read by the orchestration core and are omitted. -/
structure StageData where
  name : String
  output : List String
  dependencies : List String
  cache : Bool
  isDummy : Bool
  srcTime : Int
  resolution : Option Resolution
deriving DecidableEq, Repr

/-- The remote GitHub-release store consumed through `github_release`. -/
structure Remote where
  canConnect : Bool
  releaseTags : List String
  assets : List (String × Int)
deriving DecidableEq, Repr

/-- Mutable system state threaded through the orchestration core: the
workflow object's cache fields (`cache_tag`, `_cache_tags`,
`_cache_connected`) together with the world it acts on (local filesystem,
remote store, monotone clock supplying "now"). -/
structure Wst where
  cacheTag : Option String
  cacheTags : List String
  cacheConnected : Option Bool
  fs : List (String × Int)
  remote : Remote
  clock : Int
deriving DecidableEq, Repr

/-- Python exceptions raised by the orchestration core; each constructor
carries the data interpolated into the corresponding message string. -/
inductive WfError where
  /-- `RuntimeError(f"Stage '{name}' completed but output '{file}' is missing!")` -/
  | missingOutput : String → String → WfError
  /-- `RuntimeError(f"'{name}' is a DummyStage, but the output was not found on the local path or in the cache.")` -/
  | dummyUnresolvable : String → WfError
  /-- an exception escaping `github_release.get_assets` inside `_cache_output` -/
  | cacheAccessFailure : WfError
  /-- the `RuntimeError`s raised inside `_download_cached_output` -/
  | cacheDownloadFailure : WfError
  /-- `RuntimeError("Edge case in run logic!")` -/
  | edgeCase : WfError
deriving DecidableEq, Repr

/-- Errors raised by `Workflow.add_stage`; each carries the data
interpolated into the corresponding `ValueError` message. -/
inductive AddErr where
  /-- `ValueError(f"There is more than one stage with the name '{name}'.")` -/
  | duplicate : String → AddErr
  /-- `ValueError(f"Dependency '{dep}' for '{name}' not found. ...")` -/
  | unknownDep : String → String → AddErr
deriving DecidableEq, Repr

/-- Look a file or asset up in an association list (path/name to time). -/
def tLookup (m : List (String × Int)) (k : String) : Option Int :=
  (m.find? (fun p => p.1 == k)).map (fun p => p.2)

/-- Write a file or asset, overwriting any previous entry. -/
def tSet (m : List (String × Int)) (k : String) (t : Int) : List (String × Int) :=
  (k, t) :: m.filter (fun p => p.1 != k)

/-- Minimum of a list of timestamps (`min(...)` in the source; the list is
nonempty at every call site reachable for a stage with declared outputs). -/
def intMinList : List Int → Int
  | [] => -99
  | [x] => x
  | x :: y :: rest => min x (intMinList (y :: rest))

/-- `Stage._check_output_exists()` with no argument: all declared outputs
exist locally. -/
def checkOutputExists (fs : List (String × Int)) (s : StageData) : Bool :=
  s.output.all (fun f => (tLookup fs f).isSome)

/-- `Stage._get_local_time`: `-99` unless ALL declared outputs exist (the
guard calls `_check_output_exists()` with no argument even when asked about
a single file), else the minimum mtime over the queried files. -/
def getLocalTime (fs : List (String × Int)) (s : StageData) (files : List String) : Int :=
  if checkOutputExists fs s then intMinList (files.map (fun f => (tLookup fs f).getD (-99)))
  else -99

/-- `Workflow._connect_to_cache`: memoized; on connectivity failure records
`False`; on success records `True`, lists the release tags, and creates the
release for `cache_tag` when one was requested but absent. -/
def connect (st : Wst) : Wst :=
  match st.cacheConnected with
  | some _ => st
  | none =>
    if st.remote.canConnect then
      match st.cacheTag with
      | none => { st with cacheConnected := some true, cacheTags := st.remote.releaseTags }
      | some tag =>
        if st.remote.releaseTags.contains tag then
          { st with cacheConnected := some true, cacheTags := st.remote.releaseTags }
        else
          { st with cacheConnected := some true,
                    cacheTags := tag :: st.remote.releaseTags,
                    remote := { st.remote with releaseTags := tag :: st.remote.releaseTags } }
    else { st with cacheConnected := some false }

/-- `github_release.get_asset_info(github_name, cache_tag, name)` as an
`Option`: `none` is the exception path (no tag requested, release absent,
or asset absent). -/
def getAssetInfo (st : Wst) (name : String) : Option Int :=
  match st.cacheTag with
  | none => none
  | some tag =>
    if st.remote.releaseTags.contains tag then tLookup st.remote.assets name
    else none

/-- The `try` block of `Stage._get_cache_time`: minimum `updated_at` over
the queried files, `-99` if any lookup raises (or the file list is empty,
where `min([])` raises). -/
def cacheTimeVal (st : Wst) (files : List String) : Int :=
  match files.mapM (fun f => getAssetInfo st f) with
  | some [] => -99
  | some ts => intMinList ts
  | none => -99

/-- Cache time after the connection check of `_get_cache_time` (`-99` when
the connection failed). -/
def cvOf (st : Wst) (files : List String) : Int :=
  if st.cacheConnected = some true then cacheTimeVal st files else -99

/-- `Stage._get_cache_time` with a workflow present: connect, then report
`-99` if unconnected, else the minimum cached `updated_at`. -/
def getCacheTimeW (st : Wst) (files : List String) : Wst × Int :=
  let st' := connect st
  (st', cvOf st' files)

/-- `Stage._get_stage_time`: mtime of the defining file, overridden to
`-100` by `DummyStage`. -/
def stageTimeOf (s : StageData) : Int :=
  if s.isDummy then -100 else s.srcTime

/-- `["local", "cache", "stage"][np.argmax(times)]` for a three-element
list: `np.argmax` returns the first index attaining the maximum. -/
def npArgmax3 (a b c : Int) : Nat :=
  if b > a then (if c > b then 2 else 1) else (if c > a then 2 else 0)

/-- The `newest` label computed in `Stage.query`. -/
def argmaxNewest (a b c : Int) : Newest :=
  match npArgmax3 a b c with
  | 0 => Newest.nlocal
  | 1 => Newest.ncache
  | _ => Newest.nstage

/-- `Stage.query(workflow)`: existence flags plus the argmax label over
`(local_time, cache_time, stage_time)`.  `hasWf = false` is
`query(workflow=None)`, where both cache probes return `-99` untouched. -/
def queryStage (st : Wst) (s : StageData) (hasWf : Bool) : Wst × QueryRes :=
  let localE := checkOutputExists st.fs s
  let r1 := if hasWf then getCacheTimeW st s.output else (st, -99)
  let cacheE := decide (r1.2 > -99)
  let lt := getLocalTime r1.1.fs s s.output
  let r2 := if hasWf then getCacheTimeW r1.1 s.output else (r1.1, -99)
  (r2.1, { localE := localE, cacheE := cacheE,
           newest := argmaxNewest lt r2.2 (stageTimeOf s) })

/-- Per-file body of the upload loop of `Stage._cache_output`: skip when
the cache copy is at least as new, else delete any existing asset, upload
(stamping the asset with the server's "now"), and set the local mtime to
the fresh cache timestamp. -/
def cacheOneFile (st : Wst) (s : StageData) (f : String) : Wst :=
  let localMt := getLocalTime st.fs s [f]
  let cacheMt := cvOf st [f]
  if cacheMt ≥ localMt then st
  else
    let st' := { st with
      remote := { st.remote with assets := tSet st.remote.assets f st.clock },
      clock := st.clock + 1 }
    { st' with fs := tSet st'.fs f (cvOf st' [f]) }

/-- Upload loop of `Stage._cache_output` over the declared outputs. -/
def cacheLoop (st : Wst) (s : StageData) : List String → Wst
  | [] => st
  | f :: rest => cacheLoop (cacheOneFile st s f) s rest

/-- `Stage._cache_output(workflow)`: no-op when unconnected; raises when
`github_release.get_assets` fails (no `cache_tag` requested, or the release
for it is absent); else runs the per-file upload loop. -/
def cacheOutput (st : Wst) (s : StageData) : Except WfError Wst :=
  if (connect st).cacheConnected ≠ some true then Except.ok (connect st)
  else
    match (connect st).cacheTag with
    | none => Except.error WfError.cacheAccessFailure
    | some tag =>
      if (connect st).remote.releaseTags.contains tag then
        Except.ok (cacheLoop (connect st) s s.output)
      else Except.error WfError.cacheAccessFailure

/-- Download loop of `Stage._download_cached_output`: each file is fetched
and then its local mtime is set to the cache-recorded `updated_at`; a
failing fetch raises, leaving the files already downloaded in place. -/
def downloadLoop (st : Wst) : List String → Except WfError Wst
  | [] => Except.ok st
  | f :: rest =>
    match getAssetInfo st f with
    | none => Except.error WfError.cacheDownloadFailure
    | some t => downloadLoop { st with fs := tSet st.fs f t } rest

/-- `Stage._download_cached_output(workflow)`: raises when unconnected,
else downloads every declared output. -/
def downloadCachedOutput (st : Wst) (s : StageData) : Except WfError Wst :=
  if (connect st).cacheConnected ≠ some true then Except.error WfError.cacheDownloadFailure
  else downloadLoop (connect st) s.output

/-- The `if`/`elif` chain of `Stage._pre_run`: skip-and-maybe-upload when
local is newest, download when cache is newest (a failed download is caught
and falls through), a `DummyStage` reaching the end of the chain raises. -/
def branchStep (st : Wst) (s : StageData) (status : QueryRes) (depChanged : Bool) :
    Except WfError (Wst × StageData) :=
  if status.newest = Newest.nlocal ∧ depChanged = false then
    let s' := { s with resolution := some Resolution.rlocal }
    if s'.cache then
      match cacheOutput st s' with
      | Except.ok st' => Except.ok (st', s')
      | Except.error e => Except.error e
    else Except.ok (st, s')
  else if status.newest = Newest.ncache ∧ depChanged = false then
    match downloadCachedOutput st s with
    | Except.ok st' => Except.ok (st', { s with resolution := some Resolution.rcache })
    | Except.error _ => Except.ok (st, s)
  else if s.isDummy then Except.error (WfError.dummyUnresolvable s.name)
  else Except.ok (st, s)

/-- The trailing `if self.resolution is None` block of `Stage._pre_run`:
reports why the stage will run, raising `RuntimeError("Edge case in run
logic!")` when no listed reason applies. -/
def afterBranches (st : Wst) (s : StageData) (status : QueryRes) (depChanged : Bool) :
    Except WfError (Wst × StageData) :=
  if s.resolution = none then
    if status.localE = false ∧ status.cacheE = false then Except.ok (st, s)
    else if status.newest = Newest.ncache then Except.ok (st, s)
    else if status.newest = Newest.nstage then Except.ok (st, s)
    else if depChanged then Except.ok (st, s)
    else Except.error WfError.edgeCase
  else Except.ok (st, s)

/-- `Stage._pre_run` after its `status = self.query(workflow)` line: the
branch chain followed by the trailing diagnostic block. -/
def preRunAt (st : Wst) (s : StageData) (q : QueryRes) (depChanged : Bool) :
    Except WfError (Wst × StageData) :=
  match branchStep st s q depChanged with
  | Except.error e => Except.error e
  | Except.ok (st', s') => afterBranches st' s' q depChanged

/-- `Stage._pre_run(workflow, dep_changed)`: query, run the branch chain,
then the trailing diagnostic block. -/
def preRun (st : Wst) (s : StageData) (depChanged : Bool) :
    Except WfError (Wst × StageData) :=
  preRunAt (queryStage st s true).1 s (queryStage st s true).2 depChanged

/-- The abstract `Stage._run`, per the stage-implementation contract: a
compute stage creates every declared output (mtime = "now", advancing the
clock); `DummyStage._run` does nothing. -/
def runImpl (st : Wst) (s : StageData) : Wst :=
  if s.isDummy then st
  else { st with fs := s.output.foldl (fun fs f => tSet fs f st.clock) st.fs,
                 clock := st.clock + 1 }

/-- `Stage._post_run`: raise on the first declared output that is missing
after the run. -/
def postRun (st : Wst) (s : StageData) : Except WfError Unit :=
  match s.output.find? (fun f => (tLookup st.fs f).isNone) with
  | some f => Except.error (WfError.missingOutput s.name f)
  | none => Except.ok ()

/-- Tail of `Stage.run`: the post-run check (only with a workflow) and the
return. -/
def runFinish (wfPresent : Bool) (p : Wst × StageData) :
    Except WfError (Wst × StageData) :=
  match (if wfPresent then postRun p.1 p.2 else Except.ok ()) with
  | Except.error e => Except.error e
  | Except.ok _ => Except.ok p

/-- `Stage.run(workflow, dep_changed)` with `wfPresent` recording whether
`workflow` is `None`: pre-run only with a workflow; execute when the
resolution is unresolved or there is no workflow; post-run only with a
workflow. -/
def stageRunO (wfPresent : Bool) (st : Wst) (s : StageData) (depChanged : Bool) :
    Except WfError (Wst × StageData) :=
  match (if wfPresent then preRun st s depChanged else Except.ok (st, s)) with
  | Except.error e => Except.error e
  | Except.ok (st1, s1) =>
    runFinish wfPresent
      (if s1.resolution = none ∨ wfPresent = false then
        (runImpl st1 s1, { s1 with resolution := some Resolution.ran })
      else (st1, s1))

/-- `Stage.run` as called from `Workflow.run` (workflow present). -/
def stageRun (st : Wst) (s : StageData) (depChanged : Bool) :
    Except WfError (Wst × StageData) :=
  stageRunO true st s depChanged

/-- The loop body of `Workflow.run`: compute `dep_changed` from the re-run
list, run the stage, and append its name to the re-run list when its
resolution reads `"run"`. -/
def wfRunAux (st : Wst) (rerun : List String) :
    List StageData → Except WfError (List StageData × Wst)
  | [] => Except.ok ([], st)
  | s :: rest =>
    match stageRun st s (s.dependencies.any (fun d => rerun.contains d)) with
    | Except.error e => Except.error e
    | Except.ok (st1, s1) =>
      match wfRunAux st1
          (if s1.resolution = some Resolution.ran then rerun ++ [s1.name] else rerun) rest with
      | Except.error e => Except.error e
      | Except.ok (out, st2) => Except.ok (s1 :: out, st2)

/-- `Workflow.run()`: a single forward pass over the stages in registration
order, starting from an empty re-run list. -/
def workflowRun (stages : List StageData) (st : Wst) :
    Except WfError (List StageData × Wst) :=
  wfRunAux st [] stages

/-- `Workflow.add_stage`: duplicate-name check, then dependency check (in
order, raising on the first unregistered dependency), then append a freshly
constructed stage.  The pair's second component records the raised error;
on an error the stage list is returned as it was (the exception propagates
before `self.stages.append`). -/
def addStage (stages : List StageData) (name : String) (isDummyK : Bool)
    (output : List String) (deps : List String) (cacheF : Bool) (srcT : Int) :
    List StageData × Option AddErr :=
  if stages.any (fun p => p.name == name) then (stages, some (AddErr.duplicate name))
  else
    match deps.find? (fun d => !(stages.any (fun p => p.name == d))) with
    | some d => (stages, some (AddErr.unknownDep d name))
    | none =>
      (stages ++ [{ name := name, output := output, dependencies := deps,
                    cache := cacheF, isDummy := isDummyK, srcTime := srcT,
                    resolution := none }], none)

/-- `Workflow.query_stages`: `{stage.name: stage.query() for stage in
self.stages}` — note `stage.query()` is called with its default
`workflow=None`. -/
def queryStagesAll (stages : List StageData) (st : Wst) : List (String × QueryRes) :=
  stages.map (fun s => (s.name, (queryStage st s false).2))

/-- Remove the first occurrence of a tag (`list.remove`; the call sites
guard against the absent case with `try`/`except`, modelled as a no-op). -/
def removeFirstTag : List String → String → List String
  | [], _ => []
  | t :: rest, x => if t == x then rest else t :: removeFirstTag rest x

/-- `Workflow.delete_cache(confirm)`: refuse without confirmation;
otherwise connect and attempt `gh_release_delete` on the workflow's cache
tag, dropping it from `_cache_tags` on success (failures are caught).  The
second component lists the remote delete calls issued. -/
def deleteCache (st : Wst) (confirm : Bool) : Wst × List String :=
  if !confirm then (st, [])
  else
    let st := connect st
    match st.cacheTag with
    | none => (st, [])
    | some tag =>
      if st.remote.releaseTags.contains tag then
        ({ st with
            remote := { st.remote with releaseTags := removeFirstTag st.remote.releaseTags tag },
            cacheTags := removeFirstTag st.cacheTags tag }, [tag])
      else (st, [tag])

/-- The deletion loop of `Workflow.delete_all_caches`: delete releases tag
by tag; the first failing deletion raises out of the loop (caught by the
surrounding `except`, leaving the remaining tags in place). -/
def deleteAllLoop (st : Wst) : List String → Wst × List String
  | [] => (st, [])
  | tag :: rest =>
    if st.remote.releaseTags.contains tag then
      let st' := { st with
        remote := { st.remote with releaseTags := removeFirstTag st.remote.releaseTags tag },
        cacheTags := removeFirstTag st.cacheTags tag }
      let p := deleteAllLoop st' rest
      (p.1, tag :: p.2)
    else (st, [tag])

/-- `Workflow.delete_all_caches(confirm)`: refuse without confirmation;
otherwise connect and delete every tag in `get_existing_cache_tags()`. -/
def deleteAllCaches (st : Wst) (confirm : Bool) : Wst × List String :=
  if !confirm then (st, [])
  else
    let st := connect st
    deleteAllLoop st st.cacheTags

/-- Modelled from the spec ("reset to Unresolved at the start of each
`run()`"): the resolution reset the spec's lifecycle section claims
`Workflow.run` performs on its stages. -/
def resetResolutions (stages : List StageData) : List StageData :=
  stages.map (fun s => { s with resolution := none })

/-- Modelled from the spec: `Workflow.run` as the spec's lifecycle section
describes it — every registered stage's resolution is reset to Unresolved
at the start of the run. -/
def workflowRunReset (stages : List StageData) (st : Wst) :
    Except WfError (List StageData × Wst) :=
  workflowRun (resetResolutions stages) st

/-- Modelled from the spec: "`newest` = the argmax of `(local_time,
cache_time, stage_time)` in that fixed order, so ties prefer `local` over
`cache` over `stage`". -/
def newestSpec (a b c : Int) : Newest :=
  if a ≥ b ∧ a ≥ c then Newest.nlocal
  else if b ≥ c then Newest.ncache
  else Newest.nstage

/-- The cache-time input of `Stage.query`'s argmax, as a function of the
pre-query state. -/
def cvQuery (st : Wst) (s : StageData) (hasWf : Bool) : Int :=
  if hasWf then cvOf (connect st) s.output else -99

/-- Does this exception's message string contain the given stage name? -/
def errorNamesStage (e : WfError) (stage : String) : Bool :=
  match e with
  | WfError.missingOutput n _ => n == stage
  | WfError.dummyUnresolvable n => n == stage
  | _ => false

/-- Does this exception's message string contain the given artifact path?
Only `MissingOutputAfterRun` interpolates the file into its message. -/
def errorNamesFile (e : WfError) (file : String) : Bool :=
  match e with
  | WfError.missingOutput _ f => f == file
  | _ => false

/-! ### Basic lemmas about the connection and the query -/

theorem connect_fs (st : Wst) : (connect st).fs = st.fs := by
  unfold connect
  cases st.cacheConnected <;> simp
  split <;> [skip; rfl]
  cases st.cacheTag <;> simp
  split <;> rfl

theorem connect_assets (st : Wst) : (connect st).remote.assets = st.remote.assets := by
  unfold connect
  cases st.cacheConnected <;> simp
  split <;> [skip; rfl]
  cases st.cacheTag <;> simp
  split <;> rfl

theorem connect_clock (st : Wst) : (connect st).clock = st.clock := by
  unfold connect
  cases st.cacheConnected <;> simp
  split <;> [skip; rfl]
  cases st.cacheTag <;> simp
  split <;> rfl

theorem connect_cacheTag (st : Wst) : (connect st).cacheTag = st.cacheTag := by
  unfold connect
  cases st.cacheConnected <;> simp
  split <;> [skip; rfl]
  cases st.cacheTag <;> simp
  split <;> rfl

theorem connect_isSome (st : Wst) : (connect st).cacheConnected.isSome := by
  unfold connect
  cases h : st.cacheConnected <;> simp [h]
  split <;> [skip; rfl]
  cases st.cacheTag <;> simp
  split <;> rfl

theorem connect_of_some (st : Wst) (b : Bool) (h : st.cacheConnected = some b) :
    connect st = st := by
  unfold connect
  rw [h]

theorem connect_idem (st : Wst) : connect (connect st) = connect st := by
  rcases Option.isSome_iff_exists.mp (connect_isSome st) with ⟨b, hb⟩
  exact connect_of_some _ b hb

/-- `np.argmax` over the three freshness timestamps agrees with the spec's
description: the maximum, with ties preferring `local` over `cache` over
`stage`. -/
theorem argmax_eq_spec (a b c : Int) : argmaxNewest a b c = newestSpec a b c := by
  unfold argmaxNewest npArgmax3 newestSpec
  split_ifs <;> first | rfl | (exfalso; omega)

theorem queryStage_true (st : Wst) (s : StageData) :
    queryStage st s true =
      (connect st,
       { localE := checkOutputExists st.fs s,
         cacheE := decide (cvOf (connect st) s.output > -99),
         newest := argmaxNewest (getLocalTime st.fs s s.output)
                     (cvOf (connect st) s.output) (stageTimeOf s) }) := by
  unfold queryStage getCacheTimeW
  simp [connect_idem, connect_fs]

theorem queryStage_false (st : Wst) (s : StageData) :
    queryStage st s false =
      (st, { localE := checkOutputExists st.fs s,
             cacheE := false,
             newest := argmaxNewest (getLocalTime st.fs s s.output) (-99)
                         (stageTimeOf s) }) := by
  unfold queryStage getCacheTimeW
  simp


/-! ### C6: the `newest` label of a stage query -/

/-- C6 (confirmed): for every stage query, the reported `newest` equals the
argmax of `(local_time, cache_time, stage_time)` in that fixed order, with
ties preferring `local` over `cache` and `cache` over `stage`. -/
theorem c6_theorem (st : Wst) (s : StageData) (w : Bool) :
    (queryStage st s w).2.newest =
      newestSpec (getLocalTime st.fs s s.output) (cvQuery st s w) (stageTimeOf s) := by
  cases w
  · rw [queryStage_false]
    unfold cvQuery
    simp [argmax_eq_spec]
  · rw [queryStage_true]
    unfold cvQuery
    simp [argmax_eq_spec]

/-- Witness for C6 at a concrete state: a tie between all three times is
reported as `local`. -/
theorem c6_witness :
    (queryStage { cacheTag := none, cacheTags := [], cacheConnected := some false,
                  fs := [("w.txt", 7)],
                  remote := { canConnect := false, releaseTags := [], assets := [] },
                  clock := 8 }
       { name := "W", output := ["w.txt"], dependencies := [], cache := false,
         isDummy := false, srcTime := 7, resolution := none } false).2.newest =
      newestSpec (getLocalTime [("w.txt", 7)]
          { name := "W", output := ["w.txt"], dependencies := [], cache := false,
            isDummy := false, srcTime := 7, resolution := none } ["w.txt"])
        (cvQuery { cacheTag := none, cacheTags := [], cacheConnected := some false,
                   fs := [("w.txt", 7)],
                   remote := { canConnect := false, releaseTags := [], assets := [] },
                   clock := 8 }
           { name := "W", output := ["w.txt"], dependencies := [], cache := false,
             isDummy := false, srcTime := 7, resolution := none } false)
        (stageTimeOf { name := "W", output := ["w.txt"], dependencies := [], cache := false,
                       isDummy := false, srcTime := 7, resolution := none }) :=
  c6_theorem _ _ false

/-! ### C9: `Stage.run` with `workflow=None` -/

/-- C9 (confirmed): `Stage.run(workflow=None)` skips the pre-run freshness
query, always executes `_run`, marks the resolution `"run"`, and skips the
post-run output-existence verification — whatever the incoming resolution,
the `dep_changed` flag, or the state of the declared outputs. -/
theorem c9_theorem (st : Wst) (s : StageData) (dep : Bool) :
    stageRunO false st s dep =
      Except.ok (runImpl st s, { s with resolution := some Resolution.ran }) := by
  simp [stageRunO, runFinish]

/-- Witness for C9: a stage whose (sole) declared output does not exist and
whose resolution is already set still executes and resolves `"run"`. -/
theorem c9_witness :
    stageRunO false
      { cacheTag := none, cacheTags := [], cacheConnected := none, fs := [],
        remote := { canConnect := false, releaseTags := [], assets := [] }, clock := 4 }
      { name := "N", output := ["n.txt"], dependencies := [], cache := false,
        isDummy := false, srcTime := 2, resolution := some Resolution.rlocal } true =
      Except.ok
        (runImpl
          { cacheTag := none, cacheTags := [], cacheConnected := none, fs := [],
            remote := { canConnect := false, releaseTags := [], assets := [] }, clock := 4 }
          { name := "N", output := ["n.txt"], dependencies := [], cache := false,
            isDummy := false, srcTime := 2, resolution := some Resolution.rlocal },
         { name := "N", output := ["n.txt"], dependencies := [], cache := false,
           isDummy := false, srcTime := 2, resolution := some Resolution.ran }) :=
  c9_theorem _ _ true

/-! ### C10: cache deletion without confirmation -/

/-- C10 (confirmed): `delete_cache(confirm=False)` and
`delete_all_caches(confirm=False)` issue no remote delete call and leave
the whole workflow state — in particular the recorded `_cache_tags` list —
unchanged. -/
theorem c10_theorem (st : Wst) :
    deleteCache st false = (st, []) ∧ deleteAllCaches st false = (st, []) :=
  ⟨rfl, rfl⟩

/-- Witness for C10 at a concrete connected state holding cache tags. -/
theorem c10_witness :
    deleteCache
      { cacheTag := some "v1", cacheTags := ["v1", "v2"], cacheConnected := some true,
        fs := [], remote := { canConnect := true, releaseTags := ["v1", "v2"], assets := [] },
        clock := 3 } false =
      ({ cacheTag := some "v1", cacheTags := ["v1", "v2"], cacheConnected := some true,
         fs := [], remote := { canConnect := true, releaseTags := ["v1", "v2"], assets := [] },
         clock := 3 }, []) :=
  (c10_theorem _).1

/-! ### C7: `Workflow.add_stage` error behaviour -/

/-- C7 (confirmed): whenever `add_stage` raises, the stage list is left
unchanged; a name equal to an already-registered stage's name raises the
duplicate error (so on the second addition of a name); a dependency not
already registered raises the unknown-dependency error naming both the
missing dependency and the dependent stage; and on success exactly the one
new stage is appended. -/
theorem c7_theorem (stages : List StageData) (name : String) (isD : Bool)
    (output deps : List String) (cacheF : Bool) (srcT : Int) :
    (∀ e, (addStage stages name isD output deps cacheF srcT).2 = some e →
      (addStage stages name isD output deps cacheF srcT).1 = stages) ∧
    (stages.any (fun p => p.name == name) = true →
      (addStage stages name isD output deps cacheF srcT).2 = some (AddErr.duplicate name)) ∧
    (stages.any (fun p => p.name == name) = false →
      ∀ d, deps.find? (fun d' => !(stages.any (fun p => p.name == d'))) = some d →
      (addStage stages name isD output deps cacheF srcT).2 = some (AddErr.unknownDep d name)) ∧
    (stages.any (fun p => p.name == name) = false →
      deps.find? (fun d' => !(stages.any (fun p => p.name == d'))) = none →
      addStage stages name isD output deps cacheF srcT =
        (stages ++ [{ name := name, output := output, dependencies := deps,
                      cache := cacheF, isDummy := isD, srcTime := srcT,
                      resolution := none }], none)) := by
  refine ⟨?_, ?_, ?_, ?_⟩
  · intro e he
    unfold addStage at he ⊢
    by_cases h1 : stages.any (fun p => p.name == name)
    · simp [h1]
    · simp only [h1] at he ⊢
      cases h2 : deps.find? (fun d' => !(stages.any (fun p => p.name == d'))) with
      | none => simp [h2] at he
      | some d => simp [h2]
  · intro h1
    simp [addStage, h1]
  · intro h1 d h2
    simp [addStage, h1, h2]
  · intro h1 h2
    simp [addStage, h1, h2]

/-- Witness for C7: a concrete second addition of the name `"A"` raises the
duplicate error. -/
theorem c7_witness :
    (addStage [{ name := "A", output := ["a.txt"], dependencies := [], cache := false,
                 isDummy := false, srcTime := 1, resolution := none }]
       "A" false ["a2.txt"] [] false 1).2 = some (AddErr.duplicate "A") :=
  (c7_theorem _ "A" false ["a2.txt"] [] false 1).2.1 rfl

/-! ### C8: the `cache` field of `Workflow.query_stages` -/

/-- Concrete state for C8: the remote store is reachable and holds an asset
(with metadata) for the single declared output of stage `"S8"` under the
workflow's cache tag. -/
def st8 : Wst :=
  { cacheTag := some "v1", cacheTags := [], cacheConnected := none,
    fs := [("out.txt", 3)],
    remote := { canConnect := true, releaseTags := ["v1"], assets := [("out.txt", 5)] },
    clock := 10 }

/-- The stage queried in the C8 scenario: cache participation is on. -/
def s8 : StageData :=
  { name := "S8", output := ["out.txt"], dependencies := [], cache := true,
    isDummy := false, srcTime := 1, resolution := none }

/-- C8 (code bug): `Workflow.query_stages` calls `stage.query()` with its
default `workflow=None`, so the reported `"cache"` field is `False` even
when the remote store is reachable and has metadata for every declared
output (second conjunct: the same query with the workflow passed sees the
cache copy) — contradicting the docstring of `query_stages`, which says the
field reports whether the stage outputs exist in the cache. -/
theorem c8_theorem :
    queryStagesAll [s8] st8 =
      [("S8", { localE := true, cacheE := false, newest := Newest.nlocal })] ∧
    (queryStage st8 s8 true).2.cacheE = true :=
  ⟨rfl, rfl⟩

/-! ### Concrete run scenarios for C1 through C5 -/

/-- Stage `A` of the cascade scenario: single output `a.txt`, no
dependencies, unresolved. -/
def stA1 : StageData :=
  { name := "A", output := ["a.txt"], dependencies := [], cache := false,
    isDummy := false, srcTime := 5, resolution := none }

/-- Stage `B` of the cascade scenario: depends on `A`, output `b.txt`,
carrying the `"local"` resolution left over from a previous `run()` of the
same long-lived `Workflow` object. -/
def stB1 : StageData :=
  { name := "B", output := ["b.txt"], dependencies := ["A"], cache := false,
    isDummy := false, srcTime := 5, resolution := some Resolution.rlocal }

/-- World for the cascade scenario: `a.txt` deleted, `b.txt` present and
newer than `B`'s definition, no reachable cache. -/
def st1c : Wst :=
  { cacheTag := none, cacheTags := [], cacheConnected := none,
    fs := [("b.txt", 10)],
    remote := { canConnect := false, releaseTags := [], assets := [] },
    clock := 20 }

/-- C1 counterexample: `A` resolves `Ran` (its output is missing), `B`
declares `A` among its dependencies, yet `B`'s resolution for the same run
is `ResolvedLocal`: because `Workflow.run` never resets resolutions, `B`'s
stale `"local"` value makes `_pre_run` fall through every branch and
`Stage.run` skip the execution the cascade was supposed to force. -/
theorem c1_counterexample :
    (workflowRun [stA1, stB1] st1c).map (fun p => p.1.map StageData.resolution) =
      Except.ok [some Resolution.ran, some Resolution.rlocal] ∧
    stB1.dependencies = [stA1.name] :=
  ⟨rfl, rfl⟩

/-- C4 counterexample: on the same input, the run loop as implemented and
the run loop the spec describes (resolutions reset to Unresolved at the
start of `run()`) finish with different resolutions — the implementation
leaves `B` at its stale `"local"` value instead of re-executing it, so no
reset happens and `B`'s resolution is finalized zero times in that run. -/
theorem c4_counterexample :
    (workflowRun [stA1, stB1] st1c).map (fun p => p.1.map StageData.resolution) =
      Except.ok [some Resolution.ran, some Resolution.rlocal] ∧
    (workflowRunReset [stA1, stB1] st1c).map (fun p => p.1.map StageData.resolution) =
      Except.ok [some Resolution.ran, some Resolution.ran] ∧
    (workflowRun [stA1, stB1] st1c).map (fun p => p.1.map StageData.resolution) ≠
      (workflowRunReset [stA1, stB1] st1c).map (fun p => p.1.map StageData.resolution) := by
  refine ⟨rfl, rfl, ?_⟩
  have h1 : (workflowRun [stA1, stB1] st1c).map (fun p => p.1.map StageData.resolution) =
      Except.ok [some Resolution.ran, some Resolution.rlocal] := rfl
  have h2 : (workflowRunReset [stA1, stB1] st1c).map (fun p => p.1.map StageData.resolution) =
      Except.ok [some Resolution.ran, some Resolution.ran] := rfl
  rw [h1, h2]
  simp

/-- Stage `C` of the upload scenario: cache participation on, single output
`c.txt`, absent everywhere. -/
def stC2 : StageData :=
  { name := "C", output := ["c.txt"], dependencies := [], cache := true,
    isDummy := false, srcTime := 3, resolution := none }

/-- World for the upload scenario: reachable remote store with an existing
(empty) release for the workflow's cache tag. -/
def st2c : Wst :=
  { cacheTag := some "v1", cacheTags := [], cacheConnected := none,
    fs := [],
    remote := { canConnect := true, releaseTags := ["v1"], assets := [] },
    clock := 10 }

/-- C2 counterexample: stage `C` has the cache flag set and executes its
computation (resolution ends `Ran`), yet after the run the remote store
still holds no asset at all — nothing is uploaded after executing.
`_cache_output` is only ever invoked from the `newest == "local"` skip
branch of `_pre_run`, never after `_run`. -/
theorem c2_counterexample :
    (workflowRun [stC2] st2c).map
        (fun p => (p.1.map StageData.resolution, p.2.remote.assets)) =
      Except.ok ([some Resolution.ran], []) ∧
    stC2.cache = true :=
  ⟨rfl, rfl⟩

/-- Compute stage of the passthrough scenario, forcing the cascade onto the
dummy stage behind it. -/
def stA3 : StageData :=
  { name := "A3", output := ["a3.txt"], dependencies := [], cache := false,
    isDummy := false, srcTime := 5, resolution := none }

/-- Passthrough (`DummyStage`) declaring `d.csv`, absent locally and with
no reachable cache, depending on `A3`. -/
def stD3 : StageData :=
  { name := "D3", output := ["d.csv"], dependencies := ["A3"], cache := false,
    isDummy := true, srcTime := 0, resolution := none }

/-- World for the passthrough scenario: both outputs absent, cache
unreachable. -/
def st3c : Wst :=
  { cacheTag := none, cacheTags := [], cacheConnected := none,
    fs := [],
    remote := { canConnect := false, releaseTags := [], assets := [] },
    clock := 20 }

/-- C3 counterexample: a passthrough stage whose output is absent locally
and in the cache does abort the run, but when a dependency re-ran the
raised error is the `DummyStage` branch of `_pre_run`, whose message names
the stage only — not the missing artifact, as the claim requires. -/
theorem c3_counterexample :
    workflowRun [stA3, stD3] st3c = Except.error (WfError.dummyUnresolvable "D3") ∧
    errorNamesFile (WfError.dummyUnresolvable "D3") "d.csv" = false ∧
    stD3.isDummy = true :=
  ⟨rfl, rfl, rfl⟩

/-- Stage `S` of the double-run scenario: outputs `x` and `y` (the latter
shared with `D`), definition newer than the cache copies of `y`. -/
def stS5 : StageData :=
  { name := "S", output := ["x", "y"], dependencies := [], cache := false,
    isDummy := false, srcTime := 28, resolution := none }

/-- Stage `D` of the double-run scenario: outputs `y` and `z`, old
definition. -/
def stD5 : StageData :=
  { name := "D", output := ["y", "z"], dependencies := [], cache := false,
    isDummy := false, srcTime := 1, resolution := none }

/-- World for the double-run scenario: only `z` exists locally (very old);
the reachable cache holds `y` and `z`. -/
def st5c : Wst :=
  { cacheTag := some "v1", cacheTags := [], cacheConnected := none,
    fs := [("z", 0)],
    remote := { canConnect := true, releaseTags := ["v1"],
                assets := [("y", 25), ("z", 26)] },
    clock := 29 }

/-- C5 counterexample: every stage has `cache=false` and the first run
starts fresh, yet on the second consecutive run (nothing changed in
between) stage `S`'s resolution is `Ran`, not `ResolvedLocal`: `D`'s
cache download in the first run lowered the shared file `y`'s mtime below
`S`'s definition time, so `S` queries `newest == "stage"` on the second run
and its stale `"run"` resolution survives every branch. -/
theorem c5_counterexample :
    ((workflowRun [stS5, stD5] st5c).bind (fun p => workflowRun p.1 p.2)).map
        (fun p => p.1.map StageData.resolution) =
      Except.ok [some Resolution.ran, some Resolution.rlocal] ∧
    [stS5, stD5].all (fun s => !s.cache) = true :=
  ⟨rfl, rfl⟩

/-! ### Structural lemmas about the stage-run state machine -/

theorem afterBranches_ok {st : Wst} {s : StageData} {status : QueryRes} {dep : Bool}
    {p : Wst × StageData} (h : afterBranches st s status dep = Except.ok p) :
    p = (st, s) := by
  unfold afterBranches at h
  split_ifs at h <;> (cases h; try rfl)

theorem downloadLoop_eq {files : List String} {st st1 : Wst}
    (h : downloadLoop st files = Except.ok st1) : st1 = { st with fs := st1.fs } := by
  induction files generalizing st with
  | nil => unfold downloadLoop at h; cases h; rfl
  | cons f rest ih =>
    unfold downloadLoop at h
    cases hA : getAssetInfo st f with
    | none => rw [hA] at h; exact (Except.noConfusion h)
    | some t =>
      simp only [hA] at h
      have h2 := ih h
      exact h2

theorem connect_eq (st : Wst) :
    connect st = { st with cacheConnected := (connect st).cacheConnected,
                           cacheTags := (connect st).cacheTags,
                           remote := { st.remote with
                                       releaseTags := (connect st).remote.releaseTags } } := by
  unfold connect
  cases st.cacheConnected <;> simp
  split <;> [skip; rfl]
  cases st.cacheTag <;> simp
  split <;> rfl

theorem downloadCachedOutput_eq {st st1 : Wst} {s : StageData}
    (h : downloadCachedOutput st s = Except.ok st1) :
    st1 = { connect st with fs := st1.fs } := by
  unfold downloadCachedOutput at h
  by_cases hc : (connect st).cacheConnected ≠ some true
  · rw [if_pos hc] at h
    cases h
  · rw [if_neg hc] at h
    have h2 := downloadLoop_eq h
    exact h2

theorem runImpl_eq (st : Wst) (s : StageData) :
    runImpl st s = { st with fs := (runImpl st s).fs, clock := (runImpl st s).clock } := by
  unfold runImpl
  split <;> rfl

/-- Full case inversion of the `if`/`elif` chain of `_pre_run`. -/
theorem branchStep_cases {st : Wst} {s : StageData} {status : QueryRes} {dep : Bool}
    {st1 : Wst} {s1 : StageData}
    (h : branchStep st s status dep = Except.ok (st1, s1)) :
    (status.newest = Newest.nlocal ∧ dep = false ∧
      s1 = { s with resolution := some Resolution.rlocal } ∧
      ((s.cache = true ∧ cacheOutput st s1 = Except.ok st1) ∨
       (s.cache = false ∧ st1 = st))) ∨
    (status.newest = Newest.ncache ∧ dep = false ∧
      ((downloadCachedOutput st s = Except.ok st1 ∧
        s1 = { s with resolution := some Resolution.rcache }) ∨
       ((∃ e, downloadCachedOutput st s = Except.error e) ∧ st1 = st ∧ s1 = s))) ∨
    (¬(status.newest = Newest.nlocal ∧ dep = false) ∧
      ¬(status.newest = Newest.ncache ∧ dep = false) ∧
      s.isDummy = false ∧ st1 = st ∧ s1 = s) := by
  unfold branchStep at h
  by_cases h1 : status.newest = Newest.nlocal ∧ dep = false
  · rw [if_pos h1] at h
    by_cases hc : s.cache
    · rw [if_pos hc] at h
      cases hco : cacheOutput st { s with resolution := some Resolution.rlocal } with
      | ok st' =>
        simp only [hco] at h
        cases h
        exact Or.inl ⟨h1.1, h1.2, rfl, Or.inl ⟨hc, by first | exact hco | rfl⟩⟩
      | error e =>
        simp only [hco] at h
        cases h
    · rw [if_neg hc] at h
      cases h
      exact Or.inl ⟨h1.1, h1.2, rfl, Or.inr ⟨by simpa using hc, rfl⟩⟩
  · rw [if_neg h1] at h
    by_cases h2 : status.newest = Newest.ncache ∧ dep = false
    · rw [if_pos h2] at h
      cases hdl : downloadCachedOutput st s with
      | ok st' =>
        simp only [hdl] at h
        cases h
        exact Or.inr (Or.inl ⟨h2.1, h2.2, Or.inl ⟨by first | exact hdl | rfl, rfl⟩⟩)
      | error e =>
        simp only [hdl] at h
        cases h
        exact Or.inr (Or.inl ⟨h2.1, h2.2, Or.inr ⟨⟨e, by first | exact hdl | rfl⟩, rfl, rfl⟩⟩)
    · rw [if_neg h2] at h
      by_cases hd : s.isDummy
      · rw [if_pos hd] at h; exact (Except.noConfusion h)
      · rw [if_neg hd] at h
        cases h
        exact Or.inr (Or.inr ⟨h1, h2, by simpa using hd, rfl, rfl⟩)

/-- Inversion of `_pre_run` in terms of the branch chain evaluated at the
post-connect state. -/
theorem preRun_inv {st : Wst} {s : StageData} {dep : Bool} {st1 : Wst} {s1 : StageData}
    (h : preRun st s dep = Except.ok (st1, s1)) :
    branchStep (connect st) s (queryStage st s true).2 dep = Except.ok (st1, s1) := by
  unfold preRun preRunAt at h
  simp only [queryStage_true] at h ⊢
  cases hb : branchStep (connect st) s
      { localE := checkOutputExists st.fs s,
        cacheE := decide (cvOf (connect st) s.output > -99),
        newest := argmaxNewest (getLocalTime st.fs s s.output)
                    (cvOf (connect st) s.output) (stageTimeOf s) } dep with
  | error e =>
    rw [hb] at h
    exact (Except.noConfusion h)
  | ok p =>
    obtain ⟨pst, ps⟩ := p
    simp only [hb] at h
    have hpq := afterBranches_ok h
    injection hpq with e1 e2
    subst e1
    subst e2
    rfl

/-- Inversion of `Stage.run` (with a workflow): either the pre-run left the
resolution unresolved and the stage executed, or it resolved it and nothing
ran; the post-run check passed in both cases. -/
theorem stageRun_inv {st : Wst} {s : StageData} {dep : Bool} {st' : Wst} {s' : StageData}
    (h : stageRun st s dep = Except.ok (st', s')) :
    ∃ st1 s1, preRun st s dep = Except.ok (st1, s1) ∧ postRun st' s' = Except.ok () ∧
      ((s1.resolution = none ∧ st' = runImpl st1 s1 ∧
        s' = { s1 with resolution := some Resolution.ran }) ∨
       (s1.resolution ≠ none ∧ st' = st1 ∧ s' = s1)) := by
  unfold stageRun stageRunO at h
  rw [if_pos rfl] at h
  cases hpre : preRun st s dep with
  | error e => rw [hpre] at h; exact (Except.noConfusion h)
  | ok p =>
    obtain ⟨st1, s1⟩ := p
    simp only [hpre] at h
    refine ⟨st1, s1, rfl, ?_⟩
    by_cases hres : s1.resolution = none
    · rw [if_pos (Or.inl hres)] at h
      unfold runFinish at h
      rw [if_pos rfl] at h
      cases hpost : postRun (runImpl st1 s1) { s1 with resolution := some Resolution.ran } with
      | error e =>
        simp only [hpost] at h
        cases h
      | ok u =>
        simp only [hpost] at h
        cases h
        exact ⟨by first | exact hpost | rfl, Or.inl ⟨hres, rfl, rfl⟩⟩
    · rw [if_neg (by simp [hres])] at h
      unfold runFinish at h
      rw [if_pos rfl] at h
      cases hpost : postRun st1 s1 with
      | error e =>
        simp only [hpost] at h
        cases h
      | ok u =>
        simp only [hpost] at h
        cases h
        exact ⟨by first | exact hpost | rfl, Or.inr ⟨hres, rfl, rfl⟩⟩

theorem runImpl_assets (st : Wst) (s : StageData) :
    (runImpl st s).remote.assets = st.remote.assets := by
  rw [runImpl_eq]

/-! ### C2: no upload happens when a stage executes -/

/-- C2 (corrected): when a stage — cache flag set or not — executes its
computation during a workflow run (its resolution ends `Ran`), the remote
store's assets are exactly what they were before the stage ran: nothing is
uploaded after executing.  `_cache_output` is reachable only from the
`newest == "local"` skip branch, which ends in resolution `ResolvedLocal`. -/
theorem c2_theorem (st : Wst) (s : StageData) (dep : Bool) (st' : Wst) (s' : StageData)
    (h : stageRun st s dep = Except.ok (st', s'))
    (hr : s'.resolution = some Resolution.ran) :
    st'.remote.assets = st.remote.assets := by
  obtain ⟨st1, s1, hpre, hpost, hcase⟩ := stageRun_inv h
  have hb := preRun_inv hpre
  rcases branchStep_cases hb with ⟨hn, hdep, hs1, hup⟩ | ⟨hn, hdep, hbc⟩ |
    ⟨hn1, hn2, hdum, hst, hs⟩
  · rcases hcase with ⟨hnone, _, _⟩ | ⟨_, hst', hs'⟩
    · rw [hs1] at hnone
      simp at hnone
    · rw [hs', hs1] at hr
      simp at hr
  · rcases hbc with ⟨hdl, hs1⟩ | ⟨_, hst1, hs1⟩
    · rcases hcase with ⟨hnone, _, _⟩ | ⟨_, hst', hs'⟩
      · rw [hs1] at hnone
        simp at hnone
      · rw [hs', hs1] at hr
        simp at hr
    · rcases hcase with ⟨hnone, hst', hs'⟩ | ⟨_, hst', hs'⟩
      · rw [hst', hst1, runImpl_assets, connect_assets]
      · rw [hst', hst1, connect_assets]
  · rcases hcase with ⟨hnone, hst', hs'⟩ | ⟨_, hst', hs'⟩
    · rw [hst', hst, runImpl_assets, connect_assets]
    · rw [hst', hst, connect_assets]

/-- Witness for C2 at the concrete upload scenario: stage `C` (cache flag
set) executes; the assets are unchanged (none uploaded). -/
theorem c2_witness :
    ({ cacheTag := some "v1", cacheTags := ["v1"], cacheConnected := some true,
       fs := [("c.txt", 10)],
       remote := { canConnect := true, releaseTags := ["v1"], assets := [] },
       clock := 11 } : Wst).remote.assets = st2c.remote.assets :=
  c2_theorem st2c stC2 false
    { cacheTag := some "v1", cacheTags := ["v1"], cacheConnected := some true,
      fs := [("c.txt", 10)],
      remote := { canConnect := true, releaseTags := ["v1"], assets := [] },
      clock := 11 }
    { name := "C", output := ["c.txt"], dependencies := [], cache := true,
      isDummy := false, srcTime := 3, resolution := some Resolution.ran }
    rfl rfl

/-! ### C4: what `Workflow.run` does and does not mutate -/

theorem stageRun_fields {st : Wst} {s : StageData} {dep : Bool} {st' : Wst} {s' : StageData}
    (h : stageRun st s dep = Except.ok (st', s')) :
    ({ s' with resolution := none } : StageData) = { s with resolution := none } := by
  obtain ⟨st1, s1, hpre, hpost, hcase⟩ := stageRun_inv h
  have hb := preRun_inv hpre
  have hs1 : ({ s1 with resolution := none } : StageData) = { s with resolution := none } := by
    rcases branchStep_cases hb with ⟨_, _, hs1, _⟩ | ⟨_, _, hbc⟩ | ⟨_, _, _, _, hs⟩
    · rw [hs1]
    · rcases hbc with ⟨_, hs1⟩ | ⟨_, _, hs1⟩ <;> rw [hs1]
    · rw [hs]
  rcases hcase with ⟨_, _, hs'⟩ | ⟨_, _, hs'⟩ <;> (rw [hs']; exact hs1)

theorem wfRunAux_fields :
    ∀ (todo : List StageData) (st : Wst) (rerun : List String) (out : List StageData)
      (st' : Wst), wfRunAux st rerun todo = Except.ok (out, st') → ∀ i : Nat,
      (out[i]?).map (fun s => { s with resolution := none }) =
        (todo[i]?).map (fun s => { s with resolution := none }) := by
  intro todo
  induction todo with
  | nil =>
    intro st rerun out st' h i
    unfold wfRunAux at h
    cases h
    rfl
  | cons s rest ih =>
    intro st rerun out st' h i
    unfold wfRunAux at h
    cases hsr : stageRun st s (s.dependencies.any (fun d => rerun.contains d)) with
    | error e => rw [hsr] at h; cases h
    | ok p =>
      obtain ⟨st1, s1⟩ := p
      simp only [hsr] at h
      cases hrec : wfRunAux st1
          (if s1.resolution = some Resolution.ran then rerun ++ [s1.name] else rerun) rest with
      | error e => rw [hrec] at h; cases h
      | ok q =>
        obtain ⟨out', st2⟩ := q
        simp only [hrec] at h
        cases h
        cases i with
        | zero => simpa using stageRun_fields hsr
        | succ j => simpa using ih _ _ _ _ hrec j

/-- C4 (corrected): apart from `resolution`, no field of any registered
stage is mutated by `Workflow.run` — position by position, the output
stages agree with the input stages once the resolution is erased.  (The
reset the claim describes does not happen: see the counterexample.) -/
theorem c4_theorem (stages : List StageData) (st : Wst) (out : List StageData) (st' : Wst)
    (h : workflowRun stages st = Except.ok (out, st')) (i : Nat) :
    (out[i]?).map (fun s => { s with resolution := none }) =
      (stages[i]?).map (fun s => { s with resolution := none }) :=
  wfRunAux_fields stages st [] out st' h i

/-- Witness for C4 at the cascade scenario: stage `B` is untouched apart
from its resolution. -/
theorem c4_witness :
    (([{ name := "A", output := ["a.txt"], dependencies := [], cache := false,
         isDummy := false, srcTime := 5, resolution := some Resolution.ran },
       stB1] : List StageData)[1]?).map (fun s => { s with resolution := none }) =
      (([stA1, stB1] : List StageData)[1]?).map (fun s => { s with resolution := none }) :=
  c4_theorem [stA1, stB1] st1c
    [{ name := "A", output := ["a.txt"], dependencies := [], cache := false,
       isDummy := false, srcTime := 5, resolution := some Resolution.ran }, stB1]
    { cacheTag := none, cacheTags := [], cacheConnected := some false,
      fs := [("a.txt", 20), ("b.txt", 10)],
      remote := { canConnect := false, releaseTags := [], assets := [] },
      clock := 21 }
    rfl 1

/-! ### C1: dependency invalidation forces execution (fresh resolutions) -/

theorem stageRun_name {st : Wst} {s : StageData} {dep : Bool} {st' : Wst} {s' : StageData}
    (h : stageRun st s dep = Except.ok (st', s')) : s'.name = s.name := by
  have h2 := stageRun_fields h
  calc s'.name = ({ s' with resolution := none } : StageData).name := rfl
    _ = ({ s with resolution := none } : StageData).name := by rw [h2]
    _ = s.name := rfl

/-- With `dep_changed = true` and an unresolved incoming resolution, the
stage always executes: the skip and download branches are guarded by
`not dep_changed`, and the `DummyStage` branch raises. -/
theorem forced_run {st : Wst} {s : StageData} {st' : Wst} {s' : StageData}
    (h : stageRun st s true = Except.ok (st', s'))
    (hres : s.resolution = none) : s'.resolution = some Resolution.ran := by
  obtain ⟨st1, s1, hpre, hpost, hcase⟩ := stageRun_inv h
  have hb := preRun_inv hpre
  rcases branchStep_cases hb with ⟨_, hdep, _, _⟩ | ⟨_, hdep, _⟩ |
    ⟨_, _, _, _, hs1⟩
  · cases hdep
  · cases hdep
  · rcases hcase with ⟨_, _, hs'⟩ | ⟨hne, _, hs'⟩
    · rw [hs']
    · rw [hs1, hres] at hne
      exact absurd rfl hne

/-- Once a name is in the re-run list, every later stage that declares it
as a dependency and is still unresolved ends the run with resolution
`"run"`. -/
theorem wfRunAux_forced :
    ∀ (todo : List StageData) (st : Wst) (rerun : List String) (out : List StageData)
      (st' : Wst), wfRunAux st rerun todo = Except.ok (out, st') →
      ∀ (x : String), x ∈ rerun → ∀ (j : Nat) (b : StageData), todo[j]? = some b →
      b.resolution = none → x ∈ b.dependencies →
      (out[j]?).map (fun s => s.resolution) = some (some Resolution.ran) := by
  intro todo
  induction todo with
  | nil =>
    intro st rerun out st' h x hx j b hb
    cases hb
  | cons s rest ih =>
    intro st rerun out st' h x hx j b hb hbres hbdep
    unfold wfRunAux at h
    cases hsr : stageRun st s (s.dependencies.any (fun d => rerun.contains d)) with
    | error e => rw [hsr] at h; cases h
    | ok p =>
      obtain ⟨st1, s1⟩ := p
      simp only [hsr] at h
      cases hrec : wfRunAux st1
          (if s1.resolution = some Resolution.ran then rerun ++ [s1.name] else rerun) rest with
      | error e => rw [hrec] at h; cases h
      | ok q =>
        obtain ⟨out', st2⟩ := q
        simp only [hrec] at h
        cases h
        cases j with
        | zero =>
          have hb0 : s = b := by simpa using hb
          subst hb0
          have hany : (s.dependencies.any (fun d => rerun.contains d)) = true :=
            List.any_eq_true.mpr ⟨x, hbdep, List.elem_eq_true_of_mem hx⟩
          rw [hany] at hsr
          have := forced_run hsr hbres
          simpa using this
        | succ j' =>
          have hb' : rest[j']? = some b := by simpa using hb
          have hx' : x ∈ (if s1.resolution = some Resolution.ran
              then rerun ++ [s1.name] else rerun) := by
            split
            · exact List.mem_append_left _ hx
            · exact hx
          simpa using ih _ _ _ _ hrec x hx' j' b hb' hbres hbdep

/-- Core induction for C1: in a run whose stages all start unresolved, a
stage that ends `Ran` forces every later dependent to end `Ran`. -/
theorem wfRunAux_cascade :
    ∀ (todo : List StageData) (st : Wst) (rerun : List String) (out : List StageData)
      (st' : Wst), wfRunAux st rerun todo = Except.ok (out, st') →
      (∀ s ∈ todo, s.resolution = none) →
      ∀ (i j : Nat) (a b a' : StageData), i < j →
      todo[i]? = some a → todo[j]? = some b → a.name ∈ b.dependencies →
      out[i]? = some a' → a'.resolution = some Resolution.ran →
      (out[j]?).map (fun s => s.resolution) = some (some Resolution.ran) := by
  intro todo
  induction todo with
  | nil =>
    intro st rerun out st' h hfresh i j a b a' hij ha
    cases ha
  | cons s rest ih =>
    intro st rerun out st' h hfresh i j a b a' hij ha hb hdep ha' hra
    unfold wfRunAux at h
    cases hsr : stageRun st s (s.dependencies.any (fun d => rerun.contains d)) with
    | error e => rw [hsr] at h; cases h
    | ok p =>
      obtain ⟨st1, s1⟩ := p
      simp only [hsr] at h
      cases hrec : wfRunAux st1
          (if s1.resolution = some Resolution.ran then rerun ++ [s1.name] else rerun) rest with
      | error e => rw [hrec] at h; cases h
      | ok q =>
        obtain ⟨out', st2⟩ := q
        simp only [hrec] at h
        cases h
        cases i with
        | zero =>
          have ha0 : s = a := by simpa using ha
          subst ha0
          have ha'0 : s1 = a' := by simpa using ha'
          subst ha'0
          obtain ⟨j', rfl⟩ : ∃ j', j = j' + 1 := ⟨j - 1, by omega⟩
          have hbm : b ∈ rest := List.getElem?_mem (by simpa using hb)
          have hx' : s1.name ∈ (if s1.resolution = some Resolution.ran
              then rerun ++ [s1.name] else rerun) := by
            rw [if_pos hra]
            exact List.mem_append_right _ (List.mem_singleton.mpr rfl)
          have hdep' : s1.name ∈ b.dependencies := by
            rw [stageRun_name hsr]
            exact hdep
          have := wfRunAux_forced rest st1 _ out' _ hrec s1.name hx' j' b
            (by simpa using hb) (hfresh b (List.mem_cons_of_mem _ hbm)) hdep'
          simpa using this
        | succ i' =>
          obtain ⟨j', rfl⟩ : ∃ j', j = j' + 1 := ⟨j - 1, by omega⟩
          have := ih _ _ _ _ hrec (fun u hu => hfresh u (List.mem_cons_of_mem _ hu))
            i' j' a b a' (by omega) (by simpa using ha) (by simpa using hb) hdep
            (by simpa using ha') hra
          simpa using this

/-- C1 (corrected, needs fresh resolutions): in a `Workflow.run` whose
registered stages all start Unresolved (as on the first `run()` of a
process), if stage `A` ends `Ran` and stage `B` declares `A` among its
dependencies, then `B` ends `Ran` too — in particular its resolution is
neither `ResolvedLocal` nor `ResolvedCache`.  Without the freshness
hypothesis the property fails (see the counterexample). -/
theorem c1_theorem (stages : List StageData) (st : Wst) (out : List StageData) (st' : Wst)
    (h : workflowRun stages st = Except.ok (out, st'))
    (hfresh : ∀ s ∈ stages, s.resolution = none)
    (i j : Nat) (a b a' : StageData) (hij : i < j)
    (ha : stages[i]? = some a) (hb : stages[j]? = some b)
    (hdep : a.name ∈ b.dependencies)
    (ha' : out[i]? = some a') (hra : a'.resolution = some Resolution.ran) :
    (out[j]?).map (fun s => s.resolution) = some (some Resolution.ran) :=
  wfRunAux_cascade stages st [] out st' h hfresh i j a b a' hij ha hb hdep ha' hra

/-- Stage `B` of the cascade scenario in its fresh (first-run) state. -/
def stB1f : StageData :=
  { name := "B", output := ["b.txt"], dependencies := ["A"], cache := false,
    isDummy := false, srcTime := 5, resolution := none }

/-- Witness for C1: in the fresh cascade scenario, `A` runs (its output is
missing) and therefore `B` runs as well. -/
theorem c1_witness :
    (([{ name := "A", output := ["a.txt"], dependencies := [], cache := false,
         isDummy := false, srcTime := 5, resolution := some Resolution.ran },
       { name := "B", output := ["b.txt"], dependencies := ["A"], cache := false,
         isDummy := false, srcTime := 5, resolution := some Resolution.ran }] :
        List StageData)[1]?).map (fun s => s.resolution) = some (some Resolution.ran) :=
  c1_theorem [stA1, stB1f] st1c
    [{ name := "A", output := ["a.txt"], dependencies := [], cache := false,
       isDummy := false, srcTime := 5, resolution := some Resolution.ran },
     { name := "B", output := ["b.txt"], dependencies := ["A"], cache := false,
       isDummy := false, srcTime := 5, resolution := some Resolution.ran }]
    { cacheTag := none, cacheTags := [], cacheConnected := some false,
      fs := [("b.txt", 21), ("a.txt", 20)],
      remote := { canConnect := false, releaseTags := [], assets := [] },
      clock := 22 }
    rfl (by decide) 0 1
    stA1 stB1f
    { name := "A", output := ["a.txt"], dependencies := [], cache := false,
      isDummy := false, srcTime := 5, resolution := some Resolution.ran }
    (by decide) rfl rfl (by decide) rfl rfl

/-! ### C3: unresolvable passthrough stages abort the run -/

theorem intMinList_ge {a : Int} : ∀ {l : List Int}, (∀ x ∈ l, a ≤ x) → l ≠ [] →
    a ≤ intMinList l := by
  intro l
  induction l with
  | nil => intro _ hne; cases hne rfl
  | cons x rest ih =>
    intro hall _
    cases rest with
    | nil => exact hall x (List.mem_singleton.mpr rfl)
    | cons y t =>
      unfold intMinList
      exact le_min (hall x (List.mem_cons_self _ _))
        (ih (fun z hz => hall z (List.mem_cons_of_mem _ hz)) (by simp))

theorem tLookup_some {m : List (String × Int)} {k : String} {t : Int}
    (h : tLookup m k = some t) : ∃ p ∈ m, p.2 = t := by
  unfold tLookup at h
  cases hf : m.find? (fun p => p.1 == k) with
  | none => rw [hf] at h; cases h
  | some p =>
    rw [hf] at h
    injection h with h
    exact ⟨p, List.mem_of_find?_eq_some hf, h⟩

theorem getAssetInfo_nonneg {st : Wst} {f : String} {t : Int}
    (hassets : ∀ p ∈ st.remote.assets, 0 ≤ p.2)
    (h : getAssetInfo st f = some t) : 0 ≤ t := by
  unfold getAssetInfo at h
  cases htag : st.cacheTag with
  | none => rw [htag] at h; cases h
  | some tag =>
    rw [htag] at h
    change (if st.remote.releaseTags.contains tag = true then tLookup st.remote.assets f
      else none) = some t at h
    split_ifs at h with hc
    obtain ⟨p, hp, hpt⟩ := tLookup_some h
    rw [← hpt]
    exact hassets p hp

theorem mapM_assets_nonneg {st : Wst} (hassets : ∀ p ∈ st.remote.assets, 0 ≤ p.2) :
    ∀ (files : List String) (ts : List Int),
      files.mapM (fun f => getAssetInfo st f) = some ts → ∀ t ∈ ts, 0 ≤ t := by
  intro files
  induction files with
  | nil =>
    intro ts hm t ht
    simp only [List.mapM_nil, pure, Option.some.injEq] at hm
    subst hm
    cases ht
  | cons f rest ih =>
    intro ts hm t ht
    rw [List.mapM_cons] at hm
    cases hA : getAssetInfo st f with
    | none =>
      rw [hA] at hm
      cases hm
    | some v =>
      rw [hA] at hm
      cases hr : rest.mapM (fun g => getAssetInfo st g) with
      | none => rw [hr] at hm; cases hm
      | some ts' =>
        rw [hr] at hm
        cases hm
        rcases List.mem_cons.mp ht with rfl | ht'
        · exact getAssetInfo_nonneg hassets hA
        · exact ih ts' hr t ht'

theorem cacheTimeVal_ge {st : Wst} (hassets : ∀ p ∈ st.remote.assets, 0 ≤ p.2)
    (files : List String) : -99 ≤ cacheTimeVal st files := by
  unfold cacheTimeVal
  cases hm : files.mapM (fun f => getAssetInfo st f) with
  | none => simp
  | some ts =>
    cases ts with
    | nil => simp
    | cons t rest =>
      have hmem := mapM_assets_nonneg hassets files (t :: rest) hm
      have h1 : (-99 : Int) ≤ intMinList (t :: rest) :=
        intMinList_ge (fun x hx => le_trans (by omega) (hmem x hx)) (by simp)
      simpa using h1

theorem cvOf_ge {st : Wst} (hassets : ∀ p ∈ st.remote.assets, 0 ≤ p.2)
    (files : List String) : -99 ≤ cvOf st files := by
  unfold cvOf
  split_ifs with hc
  · exact cacheTimeVal_ge hassets files
  · exact le_refl _

theorem cacheOneFile_skip {st : Wst} {s : StageData} {f : String}
    (hout : checkOutputExists st.fs s = false)
    (hassets : ∀ p ∈ st.remote.assets, 0 ≤ p.2) :
    cacheOneFile st s f = st := by
  unfold cacheOneFile
  have hl : getLocalTime st.fs s [f] = -99 := by
    unfold getLocalTime
    rw [hout]
    simp
  rw [hl, if_pos (cvOf_ge hassets [f])]

theorem cacheLoop_skip {st : Wst} {s : StageData}
    (hout : checkOutputExists st.fs s = false)
    (hassets : ∀ p ∈ st.remote.assets, 0 ≤ p.2) :
    ∀ files : List String, cacheLoop st s files = st := by
  intro files
  induction files with
  | nil => rfl
  | cons f rest ih =>
    unfold cacheLoop
    rw [cacheOneFile_skip hout hassets]
    exact ih

/-- When every declared output is locally absent, `_cache_output` uploads
nothing and leaves the state untouched (the per-file local time is `-99`,
never above the cache time). -/
theorem cacheOutput_noop {st : Wst} {s : StageData} {b : Bool}
    (hconn : st.cacheConnected = some b)
    (hout : checkOutputExists st.fs s = false)
    (hassets : ∀ p ∈ st.remote.assets, 0 ≤ p.2)
    (hside : st.cacheConnected = some true →
      ∃ tag, st.cacheTag = some tag ∧ st.remote.releaseTags.contains tag = true) :
    cacheOutput st s = Except.ok st := by
  have hcst : connect st = st := connect_of_some st b hconn
  unfold cacheOutput
  rw [hcst]
  by_cases ht : st.cacheConnected = some true
  · rw [if_neg (by simp [ht])]
    obtain ⟨tag, htag, hmem⟩ := hside ht
    rw [htag]
    simp only [hmem, if_true]
    rw [cacheLoop_skip hout hassets]
  · rw [if_pos ht]

/-- C3 (corrected): a passthrough stage whose declared outputs are absent
both locally and in the cache aborts the workflow run at that stage —
before any later stage — with an error naming the stage.  When no
dependency re-ran, the stage is skipped as `"local"` (the argmax of
`(-99, -99, -100)`) and `_post_run` then raises `MissingOutputAfterRun`,
which also names the missing artifact; when a dependency did re-run, the
`DummyStage` branch raises an error that names the stage only. -/
theorem c3_theorem (st : Wst) (d : StageData) (post : List StageData) (rerun : List String)
    (hd : d.isDummy = true) (hne : d.output ≠ [])
    (habs : ∀ f ∈ d.output, tLookup st.fs f = none)
    (hcache : cvOf (connect st) d.output = -99)
    (hassets : ∀ p ∈ st.remote.assets, 0 ≤ p.2)
    (hside : d.cache = true → (connect st).cacheConnected = some true →
      ∃ tag, st.cacheTag = some tag ∧
        (connect st).remote.releaseTags.contains tag = true) :
    wfRunAux st rerun (d :: post) =
      Except.error (if d.dependencies.any (fun x => rerun.contains x) = true
        then WfError.dummyUnresolvable d.name
        else WfError.missingOutput d.name (d.output.headD "")) ∧
    errorNamesStage (if d.dependencies.any (fun x => rerun.contains x) = true
        then WfError.dummyUnresolvable d.name
        else WfError.missingOutput d.name (d.output.headD "")) d.name = true := by
  have hchk : checkOutputExists st.fs d = false := by
    cases houtput : d.output with
    | nil => exact absurd houtput hne
    | cons f0 rest =>
      have h0 : tLookup st.fs f0 = none :=
        habs f0 (by rw [houtput]; exact List.mem_cons_self _ _)
      unfold checkOutputExists
      rw [houtput]
      simp [h0]
  have hlt : getLocalTime st.fs d d.output = -99 := by
    unfold getLocalTime
    rw [hchk]
    simp
  have hstime : stageTimeOf d = -100 := by simp [stageTimeOf, hd]
  have hq : queryStage st d true =
      (connect st, { localE := false, cacheE := false, newest := Newest.nlocal }) := by
    rw [queryStage_true, hlt, hcache, hstime, hchk]
    rfl
  constructor
  case right => split <;> simp [errorNamesStage]
  case left =>
    unfold wfRunAux
    cases hdepv : d.dependencies.any (fun x => rerun.contains x) with
    | true =>
      have hbs : branchStep (connect st) d
          { localE := false, cacheE := false, newest := Newest.nlocal } true =
          Except.error (WfError.dummyUnresolvable d.name) := by
        unfold branchStep
        rw [if_neg (by simp), if_neg (by simp), if_pos hd]
      have hpre : preRun st d true = Except.error (WfError.dummyUnresolvable d.name) := by
        unfold preRun preRunAt
        simp only [hq]
        rw [hbs]
      have hsr : stageRun st d true = Except.error (WfError.dummyUnresolvable d.name) := by
        unfold stageRun stageRunO
        rw [if_pos rfl, hpre]
      rw [hsr]
      rfl
    | false =>
      have hbs : branchStep (connect st) d
          { localE := false, cacheE := false, newest := Newest.nlocal } false =
          Except.ok (connect st, { d with resolution := some Resolution.rlocal }) := by
        unfold branchStep
        rw [if_pos ⟨rfl, rfl⟩]
        by_cases hc : d.cache = true
        · rw [if_pos hc]
          obtain ⟨b, hb⟩ := Option.isSome_iff_exists.mp (connect_isSome st)
          have hout' : checkOutputExists (connect st).fs
              { d with resolution := some Resolution.rlocal } = false := by
            rw [connect_fs]
            exact hchk
          have hassets' : ∀ p ∈ (connect st).remote.assets, 0 ≤ p.2 := by
            rw [connect_assets]
            exact hassets
          have hside' : (connect st).cacheConnected = some true →
              ∃ tag, (connect st).cacheTag = some tag ∧
                (connect st).remote.releaseTags.contains tag = true := by
            intro hcon
            obtain ⟨tag, h1, h2⟩ := hside hc hcon
            exact ⟨tag, by rw [connect_cacheTag]; exact h1, h2⟩
          have hnoop := cacheOutput_noop hb hout' hassets' hside'
          simp only [hnoop]
        · rw [if_neg hc]
      have hpre : preRun st d false =
          Except.ok (connect st, { d with resolution := some Resolution.rlocal }) := by
        unfold preRun preRunAt
        simp only [hq]
        simp only [hbs]
        unfold afterBranches
        rw [if_neg (by simp)]
      have hpost : postRun (connect st) { d with resolution := some Resolution.rlocal } =
          Except.error (WfError.missingOutput d.name (d.output.headD "")) := by
        unfold postRun
        dsimp only
        cases houtput : d.output with
        | nil => exact absurd houtput hne
        | cons f0 rest =>
          have h0 : tLookup (connect st).fs f0 = none := by
            rw [connect_fs]
            exact habs f0 (by rw [houtput]; exact List.mem_cons_self _ _)
          rw [List.find?_cons_of_pos _ (by simp [h0])]
          rfl
      have hsr : stageRun st d false =
          Except.error (WfError.missingOutput d.name (d.output.headD "")) := by
        unfold stageRun stageRunO
        rw [if_pos rfl]
        simp only [hpre]
        rw [if_neg (by simp)]
        unfold runFinish
        rw [if_pos rfl]
        simp only [hpost]
      rw [hsr]
      rfl

/-- Passthrough stage of the C3 witness scenario: `input.csv` declared,
no dependencies, cache flag off. -/
def stD3w : StageData :=
  { name := "D", output := ["input.csv"], dependencies := [], cache := false,
    isDummy := true, srcTime := 0, resolution := none }

/-- Witness for C3: with the file absent and the cache unreachable, the run
aborts with the error naming both the stage and the missing file. -/
theorem c3_witness :
    wfRunAux st3c [] [stD3w] = Except.error (WfError.missingOutput "D" "input.csv") :=
  (c3_theorem st3c stD3w [] [] rfl (by decide) (by decide) rfl (by decide)
    (fun h => absurd h (by decide))).1

/-! ### C5: invariants for running a `cache=false` workflow twice -/

/-- All timestamps recorded anywhere (local mtimes, cache `updated_at`s)
are ordinary Unix times: nonnegative and in the past of the clock. -/
def TimesValid (st : Wst) : Prop :=
  0 ≤ st.clock ∧
  (∀ p ∈ st.fs, 0 ≤ p.2 ∧ p.2 < st.clock) ∧
  (∀ p ∈ st.remote.assets, 0 ≤ p.2 ∧ p.2 < st.clock)

/-- The stage will be skipped as `"local"` by the next query: its outputs
all exist and the local time is at least the cache and stage times. -/
def SkipReady (st : Wst) (s : StageData) : Prop :=
  s.output ≠ [] ∧ checkOutputExists st.fs s = true ∧
  cvOf st s.output ≤ getLocalTime st.fs s s.output ∧
  stageTimeOf s ≤ getLocalTime st.fs s s.output

/-- The stages declare pairwise-disjoint output sets. -/
def OutDisjoint : List StageData → Prop
  | [] => True
  | s :: rest => (∀ u ∈ rest, ∀ f ∈ s.output, f ∉ u.output) ∧ OutDisjoint rest

theorem intMinList_le {x : Int} : ∀ {l : List Int}, x ∈ l → intMinList l ≤ x := by
  intro l
  induction l with
  | nil => intro h; cases h
  | cons a rest ih =>
    intro h
    cases rest with
    | nil =>
      rcases List.mem_singleton.mp h with rfl
      exact le_refl _
    | cons y t =>
      unfold intMinList
      rcases List.mem_cons.mp h with rfl | h'
      · exact min_le_left _ _
      · exact le_trans (min_le_right _ _) (ih h')

theorem intMinList_const {c : Int} : ∀ {l : List Int}, (∀ x ∈ l, x = c) → l ≠ [] →
    intMinList l = c := by
  intro l
  induction l with
  | nil => intro _ h; cases h rfl
  | cons a rest ih =>
    intro hall _
    cases rest with
    | nil => exact hall a (List.mem_singleton.mpr rfl)
    | cons y t =>
      unfold intMinList
      rw [hall a (List.mem_cons_self _ _), ih (fun x hx => hall x (List.mem_cons_of_mem _ hx)) (by simp)]
      simp

theorem find?_filter_ne {m : List (String × Int)} {k k' : String} (hne : k' ≠ k) :
    (m.filter (fun p => p.1 != k)).find? (fun p => p.1 == k') =
      m.find? (fun p => p.1 == k') := by
  induction m with
  | nil => rfl
  | cons p rest ih =>
    rw [List.filter_cons]
    by_cases hp : p.1 = k'
    · have h1 : (p.1 != k) = true := by simp [bne, hp, hne]
      have h2 : (p.1 == k') = true := by simp [hp]
      rw [if_pos h1]
      simp only [List.find?_cons, h2]
    · have h2 : (p.1 == k') = false := by simp [hp]
      by_cases h1 : (p.1 != k) = true
      · rw [if_pos h1]
        simp only [List.find?_cons, h2]
        exact ih
      · rw [if_neg h1]
        simp only [List.find?_cons, h2]
        exact ih

theorem tLookup_tSet (m : List (String × Int)) (k k' : String) (t : Int) :
    tLookup (tSet m k t) k' = if k' = k then some t else tLookup m k' := by
  unfold tSet tLookup
  by_cases h : k' = k
  · subst h
    rw [List.find?_cons_of_pos _ (by simp), if_pos rfl]
    rfl
  · rw [List.find?_cons_of_neg _ (by simp [Ne.symm h]), if_neg h, find?_filter_ne h]

theorem tSet_mem {m : List (String × Int)} {k : String} {t : Int} {p : String × Int}
    (h : p ∈ tSet m k t) : p = (k, t) ∨ p ∈ m := by
  unfold tSet at h
  rcases List.mem_cons.mp h with rfl | h'
  · exact Or.inl rfl
  · exact Or.inr (List.mem_of_mem_filter h')

theorem all_lookup_congr {fs1 fs2 : List (String × Int)} :
    ∀ {l : List String}, (∀ f ∈ l, tLookup fs2 f = tLookup fs1 f) →
    l.all (fun f => (tLookup fs2 f).isSome) = l.all (fun f => (tLookup fs1 f).isSome) := by
  intro l
  induction l with
  | nil => intro _; rfl
  | cons f rest ih =>
    intro h
    rw [List.all_cons, List.all_cons, h f (List.mem_cons_self _ _),
      ih (fun g hg => h g (List.mem_cons_of_mem _ hg))]

theorem checkOutputExists_congr {fs1 fs2 : List (String × Int)} {s : StageData}
    (h : ∀ f ∈ s.output, tLookup fs2 f = tLookup fs1 f) :
    checkOutputExists fs2 s = checkOutputExists fs1 s := by
  unfold checkOutputExists
  exact all_lookup_congr h

theorem getLocalTime_congr {fs1 fs2 : List (String × Int)} {s : StageData}
    (h : ∀ f ∈ s.output, tLookup fs2 f = tLookup fs1 f) :
    getLocalTime fs2 s s.output = getLocalTime fs1 s s.output := by
  unfold getLocalTime
  rw [checkOutputExists_congr h,
    List.map_congr_left (fun f hf => by rw [h f hf])]

theorem cvOf_congr {st1 st2 : Wst} (files : List String)
    (hcc : st2.cacheConnected = st1.cacheConnected)
    (hct : st2.cacheTag = st1.cacheTag) (hrem : st2.remote = st1.remote) :
    cvOf st2 files = cvOf st1 files := by
  unfold cvOf cacheTimeVal getAssetInfo
  simp only [hcc, hct, hrem]

theorem SkipReady_mono {st1 st2 : Wst} {s : StageData}
    (h : SkipReady st1 s)
    (hfs : ∀ f ∈ s.output, tLookup st2.fs f = tLookup st1.fs f)
    (hcc : st2.cacheConnected = st1.cacheConnected)
    (hct : st2.cacheTag = st1.cacheTag) (hrem : st2.remote = st1.remote) :
    SkipReady st2 s := by
  obtain ⟨h1, h2, h3, h4⟩ := h
  refine ⟨h1, ?_, ?_, ?_⟩
  · rw [checkOutputExists_congr hfs]; exact h2
  · rw [cvOf_congr s.output hcc hct hrem, getLocalTime_congr hfs]; exact h3
  · rw [getLocalTime_congr hfs]; exact h4

theorem newest_local_iff {a b c : Int} :
    argmaxNewest a b c = Newest.nlocal ↔ (b ≤ a ∧ c ≤ a) := by
  rw [argmax_eq_spec]
  unfold newestSpec
  split_ifs with h1 h2
  · exact ⟨fun _ => by omega, fun _ => rfl⟩
  · exact ⟨fun hh => (nomatch hh), fun hh => by exfalso; omega⟩
  · exact ⟨fun hh => (nomatch hh), fun hh => by exfalso; omega⟩

theorem newest_cache_iff {a b c : Int} :
    argmaxNewest a b c = Newest.ncache ↔ (a < b ∧ c ≤ b) := by
  rw [argmax_eq_spec]
  unfold newestSpec
  split_ifs with h1 h2
  · exact ⟨fun hh => (nomatch hh), fun hh => by exfalso; omega⟩
  · exact ⟨fun _ => by omega, fun _ => rfl⟩
  · exact ⟨fun hh => (nomatch hh), fun hh => by exfalso; omega⟩

theorem TimesValid_connect {st : Wst} (h : TimesValid st) : TimesValid (connect st) := by
  obtain ⟨h1, h2, h3⟩ := h
  refine ⟨?_, ?_, ?_⟩
  · rw [connect_clock]; exact h1
  · rw [connect_fs, connect_clock]; exact h2
  · rw [connect_assets, connect_clock]; exact h3

theorem queryStage_true_connect (st : Wst) (s : StageData) :
    queryStage (connect st) s true = queryStage st s true := by
  rw [queryStage_true, queryStage_true, connect_idem, connect_fs]

theorem stageRun_connect (st : Wst) (s : StageData) (dep : Bool) :
    stageRun (connect st) s dep = stageRun st s dep := by
  unfold stageRun stageRunO preRun
  rw [queryStage_true_connect]
  simp only [reduceIte]

theorem wfRunAux_connect_cons (st : Wst) (rerun : List String) (s : StageData)
    (rest : List StageData) :
    wfRunAux (connect st) rerun (s :: rest) = wfRunAux st rerun (s :: rest) := by
  unfold wfRunAux
  rw [stageRun_connect]

theorem getLocalTime_ge {st : Wst} {s : StageData} (files : List String)
    (hfs : ∀ p ∈ st.fs, 0 ≤ p.2) : -99 ≤ getLocalTime st.fs s files := by
  unfold getLocalTime
  split_ifs
  · cases hmap : files.map (fun f => (tLookup st.fs f).getD (-99)) with
    | nil => simp [intMinList]
    | cons x rest =>
      rw [← hmap]
      refine intMinList_ge ?_ (by rw [hmap]; simp)
      intro y hy
      obtain ⟨f, _, hf⟩ := List.mem_map.mp hy
      cases hl : tLookup st.fs f with
      | none => rw [hl] at hf; simp at hf; omega
      | some t =>
        rw [hl] at hf
        simp at hf
        obtain ⟨p, hp, hpt⟩ := tLookup_some hl
        have := hfs p hp
        omega
  · exact le_refl _

theorem getAssetInfo_pred {P : Int → Prop} {st : Wst} {f : String} {t : Int}
    (hassets : ∀ p ∈ st.remote.assets, P p.2)
    (h : getAssetInfo st f = some t) : P t := by
  unfold getAssetInfo at h
  cases htag : st.cacheTag with
  | none => rw [htag] at h; cases h
  | some tag =>
    rw [htag] at h
    change (if st.remote.releaseTags.contains tag = true then tLookup st.remote.assets f
      else none) = some t at h
    split_ifs at h with hc
    obtain ⟨p, hp, hpt⟩ := tLookup_some h
    rw [← hpt]
    exact hassets p hp

theorem mapM_assets_pred {P : Int → Prop} {st : Wst}
    (hassets : ∀ p ∈ st.remote.assets, P p.2) :
    ∀ (files : List String) (ts : List Int),
      files.mapM (fun f => getAssetInfo st f) = some ts → ∀ t ∈ ts, P t := by
  intro files
  induction files with
  | nil =>
    intro ts hm t ht
    simp only [List.mapM_nil, pure, Option.some.injEq] at hm
    subst hm
    cases ht
  | cons f rest ih =>
    intro ts hm t ht
    rw [List.mapM_cons] at hm
    cases hA : getAssetInfo st f with
    | none => rw [hA] at hm; cases hm
    | some v =>
      rw [hA] at hm
      cases hr : rest.mapM (fun g => getAssetInfo st g) with
      | none => rw [hr] at hm; cases hm
      | some ts' =>
        rw [hr] at hm
        cases hm
        rcases List.mem_cons.mp ht with rfl | ht'
        · exact getAssetInfo_pred hassets hA
        · exact ih ts' hr t ht'

theorem mapM_some_mem {st : Wst} :
    ∀ {files : List String} {ts : List Int},
      files.mapM (fun f => getAssetInfo st f) = some ts →
      ∀ f ∈ files, ∃ t, getAssetInfo st f = some t := by
  intro files
  induction files with
  | nil => intro ts _ f hf; cases hf
  | cons g rest ih =>
    intro ts hm f hf
    rw [List.mapM_cons] at hm
    cases hA : getAssetInfo st g with
    | none => rw [hA] at hm; cases hm
    | some v =>
      rw [hA] at hm
      cases hr : rest.mapM (fun x => getAssetInfo st x) with
      | none => rw [hr] at hm; cases hm
      | some ts' =>
        rcases List.mem_cons.mp hf with rfl | hf'
        · exact ⟨v, hA⟩
        · exact ih hr f hf'

theorem mapM_some_map {st : Wst} :
    ∀ {files : List String} {ts : List Int},
      files.mapM (fun f => getAssetInfo st f) = some ts →
      files.map (fun f => (getAssetInfo st f).getD (-99)) = ts := by
  intro files
  induction files with
  | nil =>
    intro ts hm
    simp only [List.mapM_nil, pure, Option.some.injEq] at hm
    subst hm
    rfl
  | cons g rest ih =>
    intro ts hm
    rw [List.mapM_cons] at hm
    cases hA : getAssetInfo st g with
    | none => rw [hA] at hm; cases hm
    | some v =>
      rw [hA] at hm
      cases hr : rest.mapM (fun x => getAssetInfo st x) with
      | none => rw [hr] at hm; cases hm
      | some ts' =>
        rw [hr] at hm
        cases hm
        rw [List.map_cons, hA, ih hr]
        rfl

theorem cvOf_pos_inv {st : Wst} {files : List String} (h : -99 < cvOf st files) :
    st.cacheConnected = some true ∧
    ∃ ts, files.mapM (fun f => getAssetInfo st f) = some ts ∧ ts ≠ [] ∧
      cvOf st files = intMinList ts := by
  have hc : st.cacheConnected = some true := by
    by_contra hcn
    unfold cvOf at h
    rw [if_neg hcn] at h
    omega
  refine ⟨hc, ?_⟩
  unfold cvOf at h ⊢
  rw [if_pos hc] at h ⊢
  unfold cacheTimeVal at h ⊢
  cases hm : files.mapM (fun f => getAssetInfo st f) with
  | none =>
    simp only [hm] at h
    exact absurd h (by omega)
  | some ts =>
    cases ts with
    | nil =>
      simp only [hm] at h
      exact absurd h (by omega)
    | cons t rest =>
      simp only [hm]
      exact ⟨t :: rest, rfl, by simp, rfl⟩

theorem cvOf_lt_clock {st : Wst} (files : List String) (hTV : TimesValid st) :
    cvOf st files < st.clock := by
  obtain ⟨h1, _, h3⟩ := hTV
  by_cases h : -99 < cvOf st files
  · obtain ⟨hc, ts, hm, hne, hval⟩ := cvOf_pos_inv h
    cases ts with
    | nil => cases hne rfl
    | cons t rest =>
      have hmem := mapM_assets_pred (P := fun x => 0 ≤ x ∧ x < st.clock) h3 files _ hm
      have := intMinList_le (List.mem_cons_self t rest)
      have ht := hmem t (List.mem_cons_self _ _)
      rw [hval]
      omega
  · omega

theorem postRun_exists {st : Wst} {s : StageData} (h : postRun st s = Except.ok ()) :
    checkOutputExists st.fs s = true := by
  unfold postRun at h
  cases hf : s.output.find? (fun f => (tLookup st.fs f).isNone) with
  | some f => rw [hf] at h; cases h
  | none =>
    unfold checkOutputExists
    rw [List.all_eq_true]
    intro f hfm
    have h2 := List.find?_eq_none.mp hf f hfm
    cases hl : tLookup st.fs f with
    | none => rw [hl] at h2; simp at h2
    | some t => simp

theorem postRun_ok {st : Wst} {s : StageData} (h : checkOutputExists st.fs s = true) :
    postRun st s = Except.ok () := by
  unfold postRun
  rw [List.find?_eq_none.mpr]
  intro f hfm
  have h2 := List.all_eq_true.mp h f hfm
  cases hl : tLookup st.fs f with
  | none => rw [hl] at h2; simp at h2
  | some t => simp

theorem downloadLoop_ok :
    ∀ (files : List String) (st : Wst), (∀ f ∈ files, ∃ t, getAssetInfo st f = some t) →
      ∃ st2, downloadLoop st files = Except.ok st2 := by
  intro files
  induction files with
  | nil => intro st _; exact ⟨st, rfl⟩
  | cons g rest ih =>
    intro st hall
    obtain ⟨t, ht⟩ := hall g (List.mem_cons_self _ _)
    unfold downloadLoop
    rw [ht]
    exact ih { st with fs := tSet st.fs g t }
      (fun f hf => hall f (List.mem_cons_of_mem _ hf))

theorem downloadLoop_lookup :
    ∀ (files : List String) (st st2 : Wst), downloadLoop st files = Except.ok st2 →
      ∀ f : String,
        (f ∈ files → tLookup st2.fs f = getAssetInfo st f) ∧
        (f ∉ files → tLookup st2.fs f = tLookup st.fs f) := by
  intro files
  induction files with
  | nil =>
    intro st st2 h f
    unfold downloadLoop at h
    cases h
    exact ⟨fun hf => (by cases hf), fun _ => rfl⟩
  | cons g rest ih =>
    intro st st2 h f
    unfold downloadLoop at h
    cases hA : getAssetInfo st g with
    | none => rw [hA] at h; cases h
    | some t =>
      simp only [hA] at h
      have hih := ih _ st2 h f
      constructor
      · intro hf
        rcases List.mem_cons.mp hf with rfl | hf'
        · by_cases hfr : f ∈ rest
          · exact hih.1 hfr
          · rw [hih.2 hfr, tLookup_tSet, if_pos rfl]
            exact hA.symm
        · exact hih.1 hf'
      · intro hf
        have hfg : f ≠ g := fun e => hf (e ▸ List.mem_cons_self g rest)
        have hfr : f ∉ rest := fun hr => hf (List.mem_cons_of_mem _ hr)
        rw [hih.2 hfr, tLookup_tSet, if_neg hfg]

theorem downloadLoop_bound {P : Int → Prop} :
    ∀ (files : List String) (st st2 : Wst), downloadLoop st files = Except.ok st2 →
      (∀ p ∈ st.fs, P p.2) → (∀ f t, getAssetInfo st f = some t → P t) →
      ∀ p ∈ st2.fs, P p.2 := by
  intro files
  induction files with
  | nil =>
    intro st st2 h hfs _ p hp
    unfold downloadLoop at h
    cases h
    exact hfs p hp
  | cons g rest ih =>
    intro st st2 h hfs hassets p hp
    unfold downloadLoop at h
    cases hA : getAssetInfo st g with
    | none => rw [hA] at h; cases h
    | some t =>
      simp only [hA] at h
      refine ih _ st2 h ?_ hassets p hp
      intro q hq
      rcases tSet_mem hq with rfl | hq'
      · exact hassets g t hA
      · exact hfs q hq'

theorem foldl_tSet_lookup (t : Int) :
    ∀ (files : List String) (fs : List (String × Int)) (f : String),
      (f ∈ files → tLookup (files.foldl (fun a b => tSet a b t) fs) f = some t) ∧
      (f ∉ files → tLookup (files.foldl (fun a b => tSet a b t) fs) f = tLookup fs f) := by
  intro files
  induction files with
  | nil => intro fs f; exact ⟨fun hf => (by cases hf), fun _ => rfl⟩
  | cons g rest ih =>
    intro fs f
    rw [List.foldl_cons]
    constructor
    · intro hf
      rcases List.mem_cons.mp hf with rfl | hf'
      · by_cases hfr : f ∈ rest
        · exact (ih _ f).1 hfr
        · rw [(ih _ f).2 hfr, tLookup_tSet, if_pos rfl]
      · exact (ih _ f).1 hf'
    · intro hf
      have hfg : f ≠ g := fun e => hf (e ▸ List.mem_cons_self g rest)
      have hfr : f ∉ rest := fun hr => hf (List.mem_cons_of_mem _ hr)
      rw [(ih _ f).2 hfr, tLookup_tSet, if_neg hfg]

theorem foldl_tSet_mem {t : Int} :
    ∀ {files : List String} {fs : List (String × Int)} {p : String × Int},
      p ∈ files.foldl (fun a b => tSet a b t) fs → p.2 = t ∨ p ∈ fs := by
  intro files
  induction files with
  | nil => intro fs p h; exact Or.inr h
  | cons g rest ih =>
    intro fs p h
    rw [List.foldl_cons] at h
    rcases ih h with h1 | h2
    · exact Or.inl h1
    · rcases tSet_mem h2 with heq | hm
      · exact Or.inl (by rw [heq])
      · exact Or.inr hm

theorem runImpl_not_dummy {st : Wst} {s : StageData} (h : s.isDummy = false) :
    runImpl st s = { st with fs := s.output.foldl (fun a b => tSet a b st.clock) st.fs,
                             clock := st.clock + 1 } := by
  simp [runImpl, h]

theorem stageRun_output {st : Wst} {s : StageData} {dep : Bool} {st' : Wst} {s' : StageData}
    (h : stageRun st s dep = Except.ok (st', s')) : s'.output = s.output := by
  have h2 := stageRun_fields h
  calc s'.output = ({ s' with resolution := none } : StageData).output := rfl
    _ = ({ s with resolution := none } : StageData).output := by rw [h2]
    _ = s.output := rfl

theorem stageRun_cache {st : Wst} {s : StageData} {dep : Bool} {st' : Wst} {s' : StageData}
    (h : stageRun st s dep = Except.ok (st', s')) : s'.cache = s.cache := by
  have h2 := stageRun_fields h
  calc s'.cache = ({ s' with resolution := none } : StageData).cache := rfl
    _ = ({ s with resolution := none } : StageData).cache := by rw [h2]
    _ = s.cache := rfl

theorem runImpl_fs {st : Wst} {s : StageData} (h : s.isDummy = false) :
    (runImpl st s).fs = s.output.foldl (fun a c => tSet a c st.clock) st.fs := by
  rw [runImpl_not_dummy h]

theorem runImpl_clock {st : Wst} {s : StageData} (h : s.isDummy = false) :
    (runImpl st s).clock = st.clock + 1 := by
  rw [runImpl_not_dummy h]

theorem runImpl_cacheTag (st : Wst) (s : StageData) :
    (runImpl st s).cacheTag = st.cacheTag := by
  rw [runImpl_eq]

theorem runImpl_cacheConnected (st : Wst) (s : StageData) :
    (runImpl st s).cacheConnected = st.cacheConnected := by
  rw [runImpl_eq]

theorem runImpl_remote (st : Wst) (s : StageData) :
    (runImpl st s).remote = st.remote := by
  rw [runImpl_eq]

/-- One stage of a first run over a connected state: a `cache=false`,
unresolved stage with declared outputs ends its `Stage.run` in a state
where the next query will skip it as `"local"`, never touches the remote,
never lowers the clock, and writes only its own outputs. -/
theorem run1_step {st : Wst} {s : StageData} {dep : Bool} {st' : Wst} {s' : StageData}
    {b : Bool} (hconn : st.cacheConnected = some b)
    (h : stageRun st s dep = Except.ok (st', s'))
    (hcache : s.cache = false) (hne : s.output ≠ []) (hres : s.resolution = none)
    (hTV : TimesValid st) (hsrc0 : 0 ≤ s.srcTime) (hsrc1 : s.srcTime < st.clock) :
    TimesValid st' ∧ st.clock ≤ st'.clock ∧
    st'.cacheTag = st.cacheTag ∧ st'.cacheConnected = some b ∧ st'.remote = st.remote ∧
    SkipReady st' s' ∧ s'.cache = false ∧ s'.output = s.output ∧
    (∀ f, f ∉ s.output → tLookup st'.fs f = tLookup st.fs f) := by
  have hcst : connect st = st := connect_of_some st b hconn
  obtain ⟨st1, s1, hpre, hpost, hcase⟩ := stageRun_inv h
  have hb := preRun_inv hpre
  simp only [queryStage_true, hcst] at hb
  rcases branchStep_cases hb with ⟨hn, hdep, hs1, hup⟩ | ⟨hn, hdep, hbc⟩ |
    ⟨hn1, hn2, hdum, hst1, hs1⟩
  · -- skip branch: newest == "local"
    rcases hup with ⟨hct, _⟩ | ⟨_, hst1⟩
    · rw [hcache] at hct; cases hct
    · rcases hcase with ⟨hnone, _, _⟩ | ⟨_, hst', hs'⟩
      · rw [hs1] at hnone; simp at hnone
      · rw [hst', hst1, hs', hs1]
        rw [hst', hst1, hs', hs1] at hpost
        have hnl : argmaxNewest (getLocalTime st.fs s s.output) (cvOf st s.output)
            (stageTimeOf s) = Newest.nlocal := hn
        obtain ⟨hcv, hsT⟩ := newest_local_iff.mp hnl
        exact ⟨hTV, le_refl _, rfl, hconn, rfl, ⟨hne, postRun_exists hpost, hcv, hsT⟩,
          hcache, rfl, fun f _ => rfl⟩
  · -- download branch: newest == "cache"
    have hnc : argmaxNewest (getLocalTime st.fs s s.output) (cvOf st s.output)
        (stageTimeOf s) = Newest.ncache := hn
    obtain ⟨hltcv, hsTcv⟩ := newest_cache_iff.mp hnc
    have hlt99 : -99 ≤ getLocalTime st.fs s s.output :=
      getLocalTime_ge s.output (fun p hp => (hTV.2.1 p hp).1)
    have hcvpos : -99 < cvOf st s.output := by omega
    obtain ⟨hcc_true, ts, hm, htsne, hcveq⟩ := cvOf_pos_inv hcvpos
    have hball : b = true := by
      rw [hconn] at hcc_true
      exact Option.some.inj hcc_true
    rcases hbc with ⟨hdl, hs1⟩ | ⟨herr, hst1, hs1⟩
    · -- download succeeded
      have hdl' : downloadLoop st s.output = Except.ok st1 := by
        unfold downloadCachedOutput at hdl
        rw [hcst, hcc_true] at hdl
        rw [if_neg (by simp)] at hdl
        exact hdl
      have heq := downloadLoop_eq hdl'
      have lookups := downloadLoop_lookup s.output st st1 hdl'
      rcases hcase with ⟨hnone, _, _⟩ | ⟨_, hst', hs'⟩
      · rw [hs1] at hnone; simp at hnone
      · rw [hst', hs', hs1]
        have hchk : checkOutputExists st1.fs
            { s with resolution := some Resolution.rcache } = true := by
          unfold checkOutputExists
          rw [List.all_eq_true]
          intro f hf
          obtain ⟨t, ht⟩ := mapM_some_mem hm f hf
          rw [(lookups f).1 hf, ht]
          rfl
        have hmapc : ∀ f ∈ s.output,
            (tLookup st1.fs f).getD (-99) = (getAssetInfo st f).getD (-99) :=
          fun f hf => by rw [(lookups f).1 hf]
        have hglt : getLocalTime st1.fs { s with resolution := some Resolution.rcache }
            s.output = cvOf st s.output := by
          unfold getLocalTime
          rw [hchk]
          simp only [if_true]
          rw [List.map_congr_left hmapc, mapM_some_map hm, hcveq]
        have hf1 : st1.cacheConnected = st.cacheConnected := by rw [heq]
        have hf2 : st1.cacheTag = st.cacheTag := by rw [heq]
        have hf3 : st1.remote = st.remote := by rw [heq]
        have hf4 : st1.clock = st.clock := by rw [heq]
        have hcv1 : cvOf st1 s.output = cvOf st s.output := cvOf_congr s.output hf1 hf2 hf3
        refine ⟨⟨?_, ?_, ?_⟩, by rw [hf4], hf2, by rw [hf1, hconn], hf3,
          ⟨hne, hchk, ?_, ?_⟩, hcache, rfl, fun f hf => (lookups f).2 hf⟩
        · rw [hf4]; exact hTV.1
        · rw [hf4]
          exact downloadLoop_bound s.output st st1 hdl' hTV.2.1
            (fun f t ht => @getAssetInfo_pred (fun x => 0 ≤ x ∧ x < st.clock) st f t
              hTV.2.2 ht)
        · rw [hf4, hf3]; exact hTV.2.2
        · rw [hcv1, hglt]
        · rw [hglt]; exact hsTcv
    · -- download provably cannot fail here
      exfalso
      obtain ⟨st2x, hok⟩ := downloadLoop_ok s.output st (mapM_some_mem hm)
      have hdok : downloadCachedOutput st s = Except.ok st2x := by
        unfold downloadCachedOutput
        rw [hcst, hcc_true]
        rw [if_neg (by simp)]
        exact hok
      obtain ⟨e, he⟩ := herr
      rw [hdok] at he
      cases he
  · -- execution branch
    rcases hcase with ⟨hnone, hst', hs'⟩ | ⟨hne', _, _⟩
    · rw [hst', hst1, hs', hs1]
      have hlk := foldl_tSet_lookup st.clock s.output st.fs
      have hchk : checkOutputExists (runImpl st s).fs
          { s with resolution := some Resolution.ran } = true := by
        rw [runImpl_fs hdum]
        unfold checkOutputExists
        rw [List.all_eq_true]
        intro f hf
        rw [(hlk f).1 hf]
        rfl
      have hmapc : ∀ f ∈ s.output,
          (tLookup (runImpl st s).fs f).getD (-99) = st.clock := by
        intro f hf
        rw [runImpl_fs hdum, (hlk f).1 hf]
        rfl
      have hglt : getLocalTime (runImpl st s).fs
          { s with resolution := some Resolution.ran } s.output = st.clock := by
        unfold getLocalTime
        rw [hchk]
        simp only [if_true]
        refine intMinList_const ?_ (by simpa using hne)
        intro x hx
        obtain ⟨f, hfm, hfx⟩ := List.mem_map.mp hx
        rw [← hfx]
        exact hmapc f hfm
      have hstv : stageTimeOf s = s.srcTime := by simp [stageTimeOf, hdum]
      have hcvlt : cvOf st s.output < st.clock := cvOf_lt_clock s.output hTV
      have hcv' : cvOf (runImpl st s) s.output = cvOf st s.output :=
        cvOf_congr s.output (runImpl_cacheConnected st s) (runImpl_cacheTag st s)
          (runImpl_remote st s)
      have hck : (runImpl st s).clock = st.clock + 1 := runImpl_clock hdum
      refine ⟨⟨?_, ?_, ?_⟩, ?_, runImpl_cacheTag st s, ?_, runImpl_remote st s,
        ⟨hne, hchk, ?_, ?_⟩, hcache, rfl, ?_⟩
      · rw [hck]
        have := hTV.1
        omega
      · intro p hp
        rw [runImpl_fs hdum] at hp
        rw [hck]
        rcases foldl_tSet_mem hp with h1 | h2
        · have := hTV.1
          rw [h1]
          omega
        · have := hTV.2.1 p h2
          omega
      · intro p hp
        rw [runImpl_remote] at hp
        rw [hck]
        have := hTV.2.2 p hp
        omega
      · rw [hck]
        omega
      · rw [runImpl_cacheConnected]
        exact hconn
      · rw [hcv', hglt]
        omega
      · rw [hglt]
        simp only [stageTimeOf, hdum]
        omega
      · intro f hf
        rw [runImpl_fs hdum]
        exact (hlk f).2 hf
    · rw [hs1, hres] at hne'
      exact absurd rfl hne'

/-- A stage that is `SkipReady` (outputs present and newest) with the cache
flag off is resolved `"local"` by `Stage.run` without touching the state. -/
theorem stageRun_skip {st : Wst} {s : StageData} {b : Bool}
    (hconn : st.cacheConnected = some b) (hsr : SkipReady st s)
    (hc : s.cache = false) :
    stageRun st s false =
      Except.ok (st, { s with resolution := some Resolution.rlocal }) := by
  have hcst : connect st = st := connect_of_some st b hconn
  obtain ⟨hne, hchk, hcv, hsT⟩ := hsr
  have hnl : argmaxNewest (getLocalTime st.fs s s.output) (cvOf st s.output)
      (stageTimeOf s) = Newest.nlocal := newest_local_iff.mpr ⟨hcv, hsT⟩
  unfold stageRun stageRunO preRun
  rw [queryStage_true]
  simp only
  unfold preRunAt branchStep
  simp only [hcst, hnl]
  have hpost : postRun st { s with cache := false, resolution := some Resolution.rlocal } =
      Except.ok () := postRun_ok hchk
  simp [hc, hpost, afterBranches, runFinish]

/-- A run over stages that are all `SkipReady` with the cache flag off
resolves every stage `"local"` and leaves the state untouched. -/
theorem wfRunAux_skipAll {b : Bool} :
    ∀ (todo : List StageData) (st : Wst), st.cacheConnected = some b →
    (∀ s ∈ todo, SkipReady st s ∧ s.cache = false) →
    wfRunAux st [] todo =
      Except.ok (todo.map (fun s => { s with resolution := some Resolution.rlocal }), st) := by
  intro todo
  induction todo with
  | nil => intro st _ _; rfl
  | cons s rest ih =>
    intro st hconn hall
    obtain ⟨hsr, hc⟩ := hall s (List.mem_cons_self _ _)
    unfold wfRunAux
    have hdep : (s.dependencies.any (fun d => List.contains [] d)) = false := by simp
    rw [hdep, stageRun_skip hconn hsr hc]
    simp only
    rw [if_neg (by simp)]
    rw [ih st hconn (fun u hu => hall u (List.mem_cons_of_mem _ hu))]
    rfl

/-- A first run over fresh (`resolution = None`), `cache=false` stages with
pairwise-disjoint outputs leaves every returned stage `SkipReady`: its
outputs exist locally and are at least as new as the cache and stage
times. -/
theorem wfRunAux_run1 {b : Bool} :
    ∀ (todo : List StageData) (st : Wst) (rerun : List String) (out : List StageData)
      (st' : Wst), st.cacheConnected = some b →
    wfRunAux st rerun todo = Except.ok (out, st') →
    TimesValid st →
    (∀ s ∈ todo, s.cache = false ∧ s.output ≠ [] ∧ s.resolution = none ∧
      0 ≤ s.srcTime ∧ s.srcTime < st.clock) →
    OutDisjoint todo →
    TimesValid st' ∧ st.clock ≤ st'.clock ∧ st'.cacheTag = st.cacheTag ∧
    st'.cacheConnected = some b ∧ st'.remote = st.remote ∧
    (∀ u ∈ out, SkipReady st' u ∧ u.cache = false) ∧
    (∀ f, (∀ u ∈ todo, f ∉ u.output) → tLookup st'.fs f = tLookup st.fs f) := by
  intro todo
  induction todo with
  | nil =>
    intro st rerun out st' hconn h hTV _ _
    unfold wfRunAux at h
    cases h
    exact ⟨hTV, le_refl _, rfl, hconn, rfl,
      fun u hu => absurd hu (List.not_mem_nil u), fun f _ => rfl⟩
  | cons s rest ih =>
    intro st rerun out st' hconn h hTV hstage hdisj
    obtain ⟨hc, hne, hres, hsc0, hsc1⟩ := hstage s (List.mem_cons_self _ _)
    obtain ⟨hdhead, hdrest⟩ := hdisj
    unfold wfRunAux at h
    cases hsr : stageRun st s (s.dependencies.any (fun d => rerun.contains d)) with
    | error e => rw [hsr] at h; cases h
    | ok p =>
      obtain ⟨st1, s1⟩ := p
      simp only [hsr] at h
      obtain ⟨hTV1, hclk1, hct1, hcc1, hrem1, hskip1, hc1, hout1, hfs1⟩ :=
        run1_step hconn hsr hc hne hres hTV hsc0 hsc1
      cases hrec : wfRunAux st1
          (if s1.resolution = some Resolution.ran then rerun ++ [s1.name] else rerun)
          rest with
      | error e => rw [hrec] at h; cases h
      | ok q =>
        obtain ⟨out2, st2⟩ := q
        simp only [hrec] at h
        have hstage2 : ∀ u ∈ rest, u.cache = false ∧ u.output ≠ [] ∧
            u.resolution = none ∧ 0 ≤ u.srcTime ∧ u.srcTime < st1.clock := by
          intro u hu
          obtain ⟨h1, h2, h3, h4, h5⟩ := hstage u (List.mem_cons_of_mem _ hu)
          exact ⟨h1, h2, h3, h4, by omega⟩
        obtain ⟨hTV2, hclk2, hct2, hcc2, hrem2, hskip2, hfs2⟩ :=
          ih st1 _ out2 st2 hcc1 hrec hTV1 hstage2 hdrest
        cases h
        refine ⟨hTV2, by omega, hct2.trans hct1, hcc2, hrem2.trans hrem1, ?_, ?_⟩
        · intro u hu
          rcases List.mem_cons.mp hu with rfl | hu'
          · refine ⟨SkipReady_mono hskip1 ?_ (by rw [hcc2, hcc1]) hct2 hrem2, hc1⟩
            intro f hf
            refine hfs2 f ?_
            intro v hv
            refine hdhead v hv f ?_
            rw [← hout1]
            exact hf
          · exact hskip2 u hu'
        · intro f hf
          exact (hfs2 f (fun v hv => hf v (List.mem_cons_of_mem _ hv))).trans
            (hfs1 f (hf s (List.mem_cons_self _ _)))

/-- C5 (corrected): running a workflow twice consecutively with no external
filesystem changes executes zero stages on the second run — every stage's
second-run resolution is `"local"` — provided additionally that the stages
declare pairwise-disjoint output sets and all start unresolved (the claim's
original form fails: with overlapping outputs a cache download can lower a
shared file's mtime below another stage's definition time, and a stale
resolution can survive into the second run, see the counterexample). -/
theorem c5_theorem (stages : List StageData) (st : Wst) (out1 : List StageData)
    (st1 : Wst)
    (hstage : ∀ s ∈ stages, s.cache = false ∧ s.output ≠ [] ∧ s.resolution = none ∧
      0 ≤ s.srcTime ∧ s.srcTime < st.clock)
    (hdisj : OutDisjoint stages) (hTV : TimesValid st)
    (h1 : workflowRun stages st = Except.ok (out1, st1)) :
    workflowRun out1 st1 =
      Except.ok (out1.map (fun s => { s with resolution := some Resolution.rlocal }),
        st1) := by
  cases stages with
  | nil =>
    unfold workflowRun wfRunAux at h1
    cases h1
    rfl
  | cons s rest =>
    unfold workflowRun at h1
    rw [← wfRunAux_connect_cons] at h1
    obtain ⟨b, hb⟩ := Option.isSome_iff_exists.mp (connect_isSome st)
    have hstagec : ∀ u ∈ s :: rest, u.cache = false ∧ u.output ≠ [] ∧
        u.resolution = none ∧ 0 ≤ u.srcTime ∧ u.srcTime < (connect st).clock := by
      intro u hu
      obtain ⟨h1, h2, h3, h4, h5⟩ := hstage u hu
      rw [connect_clock]
      exact ⟨h1, h2, h3, h4, h5⟩
    obtain ⟨_, _, _, hcc1, _, hskip, _⟩ :=
      wfRunAux_run1 (s :: rest) (connect st) [] out1 st1 hb h1
        (TimesValid_connect hTV) hstagec hdisj
    unfold workflowRun
    exact wfRunAux_skipAll out1 st1 hcc1 hskip

/-- Witness for C5 at a one-stage workflow: after the first run executes the
stage, the second run resolves it `"local"` and changes nothing. -/
theorem c5_witness :
    workflowRun
      [{ name := "W", output := ["w.out"], dependencies := [], cache := false,
         isDummy := false, srcTime := 1, resolution := some Resolution.ran }]
      { cacheTag := none, cacheTags := [], cacheConnected := some false,
        fs := [("w.out", 5)],
        remote := { canConnect := false, releaseTags := [], assets := [] },
        clock := 6 } =
      Except.ok
        ([{ name := "W", output := ["w.out"], dependencies := [], cache := false,
            isDummy := false, srcTime := 1, resolution := some Resolution.rlocal }],
         { cacheTag := none, cacheTags := [], cacheConnected := some false,
           fs := [("w.out", 5)],
           remote := { canConnect := false, releaseTags := [], assets := [] },
           clock := 6 }) :=
  c5_theorem
    [{ name := "W", output := ["w.out"], dependencies := [], cache := false,
       isDummy := false, srcTime := 1, resolution := none }]
    { cacheTag := none, cacheTags := [], cacheConnected := none, fs := [],
      remote := { canConnect := false, releaseTags := [], assets := [] },
      clock := 5 }
    [{ name := "W", output := ["w.out"], dependencies := [], cache := false,
       isDummy := false, srcTime := 1, resolution := some Resolution.ran }]
    { cacheTag := none, cacheTags := [], cacheConnected := some false,
      fs := [("w.out", 5)],
      remote := { canConnect := false, releaseTags := [], assets := [] },
      clock := 6 }
    (by decide)
    ⟨fun u hu => absurd hu (List.not_mem_nil u), trivial⟩
    ⟨by decide, by decide, by decide⟩
    rfl
